import Mathlib

/-!
Shallow embedding of the `chains` crate (omni-viral/chains): the resource
state model (`src/utils/access.rs`, `src/utils/layout.rs`, `src/utils/state.rs`),
the chain builder (`src/chain.rs`, `Chain::build`) and the image-chain
extensions (`src/image/mod.rs`).

Modelling conventions:
* bitflag masks (`hal::buffer::Access`, `hal::image::Access`,
  `hal::pso::PipelineStage`) are natural numbers used as bitmasks with
  `|||`/`&&&`; the numeric value of each named flag is an arbitrary distinct
  bit, which is all the source relies on;
* a Rust `panic!` (and the eager panic inside `common_image_layout` when it is
  called from `merge`) is modelled by an `Option` result, `none` for the panic;
* the `FnMut() -> (S, W)` semaphore allocator is modelled by a function
  `alloc : Nat → S × W` together with an explicit call counter: the k-th
  allocator call returns `alloc k`;
* `Range<T>` values (`a..b`) are modelled as pairs `(a, b)`;
* the two imperative loops of `Chain::build` are structural recursions over
  the very index lists the Rust `for` loops iterate, with the `continue`
  and `break` statements translated case by case.
-/

namespace Chains

/-- `hal::queue::QueueFamilyId` (an opaque id). -/
structure QueueFamilyId where
  id : Nat
deriving DecidableEq

/-- `QueueId` from `src/chain.rs`. -/
structure QueueId where
  index : Nat
  family : QueueFamilyId
deriving DecidableEq

/-- `hal::pso::PipelineStage`: a stage bitmask. -/
abbrev PipelineStage := Nat

namespace PipelineStage

def TOP_OF_PIPE : PipelineStage := 1
def BOTTOM_OF_PIPE : PipelineStage := 2 ^ 13

end PipelineStage

/-- `hal::buffer::Access`: a buffer access bitmask. -/
abbrev BufferAccess := Nat

namespace BufferAccess

def TRANSFER_READ : BufferAccess := 2 ^ 0
def TRANSFER_WRITE : BufferAccess := 2 ^ 1
def INDEX_BUFFER_READ : BufferAccess := 2 ^ 2
def VERTEX_BUFFER_READ : BufferAccess := 2 ^ 3
def CONSTANT_BUFFER_READ : BufferAccess := 2 ^ 4
def INDIRECT_COMMAND_READ : BufferAccess := 2 ^ 5
def SHADER_READ : BufferAccess := 2 ^ 6
def SHADER_WRITE : BufferAccess := 2 ^ 7
def HOST_READ : BufferAccess := 2 ^ 8
def HOST_WRITE : BufferAccess := 2 ^ 9
def MEMORY_READ : BufferAccess := 2 ^ 10
def MEMORY_WRITE : BufferAccess := 2 ^ 11

/-- bitflags `contains`: all bits of `f` are set in `m`. -/
def contains (m f : Nat) : Bool := m &&& f == f

/-- `<BufferAccess as Access>::is_write` from `src/utils/access.rs`. -/
def is_write (a : BufferAccess) : Bool :=
  contains a TRANSFER_WRITE || contains a SHADER_WRITE
    || contains a HOST_WRITE || contains a MEMORY_WRITE

/-- `<BufferAccess as Access>::is_read` from `src/utils/access.rs`. -/
def is_read (a : BufferAccess) : Bool :=
  contains a TRANSFER_READ || contains a SHADER_READ
    || contains a HOST_READ || contains a MEMORY_READ
    || contains a INDEX_BUFFER_READ
    || contains a VERTEX_BUFFER_READ
    || contains a INDIRECT_COMMAND_READ
    || contains a CONSTANT_BUFFER_READ

end BufferAccess

/-- `hal::image::Access`: an image access bitmask. -/
abbrev ImageAccess := Nat

namespace ImageAccess

def COLOR_ATTACHMENT_READ : ImageAccess := 2 ^ 0
def COLOR_ATTACHMENT_WRITE : ImageAccess := 2 ^ 1
def DEPTH_STENCIL_ATTACHMENT_READ : ImageAccess := 2 ^ 2
def DEPTH_STENCIL_ATTACHMENT_WRITE : ImageAccess := 2 ^ 3
def TRANSFER_READ : ImageAccess := 2 ^ 4
def TRANSFER_WRITE : ImageAccess := 2 ^ 5
def SHADER_READ : ImageAccess := 2 ^ 6
def SHADER_WRITE : ImageAccess := 2 ^ 7
def HOST_READ : ImageAccess := 2 ^ 8
def HOST_WRITE : ImageAccess := 2 ^ 9
def MEMORY_READ : ImageAccess := 2 ^ 10
def MEMORY_WRITE : ImageAccess := 2 ^ 11
def INPUT_ATTACHMENT_READ : ImageAccess := 2 ^ 12

/-- `<ImageAccess as Access>::is_write` from `src/utils/access.rs`. -/
def is_write (a : ImageAccess) : Bool :=
  BufferAccess.contains a COLOR_ATTACHMENT_WRITE
    || BufferAccess.contains a DEPTH_STENCIL_ATTACHMENT_WRITE
    || BufferAccess.contains a TRANSFER_WRITE
    || BufferAccess.contains a SHADER_WRITE
    || BufferAccess.contains a HOST_WRITE
    || BufferAccess.contains a MEMORY_WRITE

/-- `<ImageAccess as Access>::is_read` from `src/utils/access.rs`. -/
def is_read (a : ImageAccess) : Bool :=
  BufferAccess.contains a COLOR_ATTACHMENT_READ
    || BufferAccess.contains a DEPTH_STENCIL_ATTACHMENT_READ
    || BufferAccess.contains a TRANSFER_READ
    || BufferAccess.contains a SHADER_READ
    || BufferAccess.contains a HOST_READ
    || BufferAccess.contains a MEMORY_READ
    || BufferAccess.contains a INPUT_ATTACHMENT_READ

end ImageAccess

/-- `hal::image::ImageLayout`. -/
inductive ImageLayout where
  | General
  | ColorAttachmentOptimal
  | DepthStencilAttachmentOptimal
  | DepthStencilReadOnlyOptimal
  | ShaderReadOnlyOptimal
  | TransferSrcOptimal
  | TransferDstOptimal
  | Undefined
  | Preinitialized
  | Present
deriving DecidableEq, Fintype

/-- `common_image_layout` from `src/utils/layout.rs`, with the `panic!` on a
`Present` operand modelled as `none`.  The match arms are translated in source
order: the `x == y` arm fires before the `Present` panic arm. -/
def common_image_layout (left right : ImageLayout) : Option ImageLayout :=
  if left = right then some left
  else if left = ImageLayout.Present ∨ right = ImageLayout.Present then none
  else if (left = ImageLayout.ShaderReadOnlyOptimal ∧
            right = ImageLayout.DepthStencilReadOnlyOptimal) ∨
          (left = ImageLayout.DepthStencilReadOnlyOptimal ∧
            right = ImageLayout.ShaderReadOnlyOptimal) then
    some ImageLayout.DepthStencilReadOnlyOptimal
  else some ImageLayout.General

/-- `hal::buffer::State` is its access mask (`src/utils/state.rs`). -/
abbrev BufferState := BufferAccess

/-- `hal::image::State` is an access mask paired with a layout. -/
abbrev ImageState := ImageAccess × ImageLayout

/-- The operations of the `State` trait (`src/utils/state.rs`) plus the
`Access` trait operations they delegate to, bundled per resource category.
`merge` returns `none` both when the states cannot merge and when the
source would panic inside the merge (image layout incompatibility). -/
structure StateOps (T : Type) (A : Type) where
  accessOf : T → A
  is_read : A → Bool
  is_write : A → Bool
  noAccess : A
  discard_content : T → T
  replace_access : T → A → T
  merge : T → T → Option T

/-- `State::with_no_access` (`src/utils/state.rs`): replace the access by
`Access::none()`. -/
def StateOps.with_no_access {T A : Type} (ops : StateOps T A) (t : T) : T :=
  ops.replace_access t ops.noAccess

/-- `State::compatible` (`src/utils/state.rs`). -/
def StateOps.compatible {T A : Type} [DecidableEq T] (ops : StateOps T A)
    (s rhs : T) : Bool :=
  ops.merge s rhs == some s

/-- `impl State for BufferState` (`src/utils/state.rs`); `discard_content`
is the trait's default (identity). -/
def bufferStateOps : StateOps BufferState BufferAccess where
  accessOf := fun s => s
  is_read := BufferAccess.is_read
  is_write := BufferAccess.is_write
  noAccess := 0
  discard_content := fun s => s
  replace_access := fun _ access => access
  merge := fun s rhs =>
    if BufferAccess.is_read s ∧ BufferAccess.is_read rhs then some (s ||| rhs)
    else none

/-- `impl State for ImageState` (`src/utils/state.rs`). -/
def imageStateOps : StateOps ImageState ImageAccess where
  accessOf := fun s => s.1
  is_read := ImageAccess.is_read
  is_write := ImageAccess.is_write
  noAccess := 0
  discard_content := fun s => (s.1, ImageLayout.Undefined)
  replace_access := fun s access => (access, s.2)
  merge := fun s rhs =>
    if ImageAccess.is_read s.1 ∧ ImageAccess.is_read rhs.1 then
      (common_image_layout s.2 rhs.2).map (fun l => (s.1 ||| rhs.1, l))
    else none

/-- `LinkSync` from `src/chain.rs` (the `Acquire`/`Release` marker of the
no-op variant carries no information and is dropped; state/stage ranges are
pairs). -/
inductive LinkSync (T S : Type) where
  | none
  | barrier (states : T × T) (stages : PipelineStage × PipelineStage)
  | semaphore (semaphore : S)
  | barrierSemaphore (semaphore : S) (states : T × T)
      (stages : PipelineStage × PipelineStage)
  | transfer (semaphore : S) (states : T × T)
      (stages : PipelineStage × PipelineStage) (other : QueueId)
deriving DecidableEq

/-- `LinkSync::is_none` from `src/chain.rs`. -/
def LinkSync.is_none {T S : Type} : LinkSync T S → Bool
  | LinkSync.none => true
  | _ => false

/-- `ChainLink` from `src/chain.rs`. -/
structure ChainLink (T S W : Type) where
  queue : QueueId
  stages : PipelineStage
  state : T
  merged_state : T
  merged_stages : PipelineStage
  acquire : LinkSync T W
  release : LinkSync T S
deriving DecidableEq

/-- `Link` from `src/chain.rs`; the `ChainId<T>` is its index (the phantom
type tag separates categories statically and plays no role here). -/
structure Link (T U : Type) where
  id : Nat
  stages : PipelineStage
  state : T
  usage : U
deriving DecidableEq

/-- `PassLinks` from `src/chain.rs`. -/
structure PassLinks (T U : Type) where
  queue : QueueId
  links : List (Link T U)
deriving DecidableEq

/-- `Chain` from `src/chain.rs`. -/
structure Chain (T U I S W : Type) where
  usage : U
  init : I
  links : List (Option (ChainLink T S W))
deriving DecidableEq

/-- Read the ring slot at `index` (absent both for a `None` slot and out of
bounds; `Chain::build` only indexes in bounds). -/
def getl {T S W : Type} (links : List (Option (ChainLink T S W))) (index : Nat) :
    Option (ChainLink T S W) :=
  (links[index]?).getD Option.none

/-- Overwrite the ring slot at `index` with an existing link. -/
def setl {T S W : Type} (links : List (Option (ChainLink T S W))) (index : Nat)
    (link : ChainLink T S W) : List (Option (ChainLink T S W)) :=
  links.set index (some link)

/-- The index order in which `Chain::build` searches for the nearest other
existing link from `index`: `after` (indices `index+1..count`) chained with
`before` (indices `0..index`). -/
def nextIndices (count index : Nat) : List Nat :=
  (List.range (count - 1)).map (fun k => (index + 1 + k) % count)

/-- Index of the nearest other existing link after `index`, wrapping:
`after.iter_mut().chain(before.iter_mut()).filter_map(Option::as_mut).next()`
in `Chain::build`. -/
def find_next {T S W : Type} (links : List (Option (ChainLink T S W)))
    (index : Nat) : Option Nat :=
  (nextIndices links.length index).find? (fun j => (getl links j).isSome)

/-- Step-1 collection of `Chain::build`: one slot per pass, `Some` with the
initial (unmerged) `ChainLink` when the pass declares a link for `id`. -/
def collect {T U S W : Type} [DecidableEq T] [DecidableEq U] (id : Nat)
    (passes : List (PassLinks T U)) : List (Option (ChainLink T S W)) :=
  passes.map (fun pass =>
    (pass.links.find? (fun link => link.id == id)).map (fun link =>
      { queue := pass.queue
        stages := link.stages
        state := link.state
        merged_state := link.state
        merged_stages := link.stages
        acquire := LinkSync.none
        release := LinkSync.none }))

/-- Step-1 usage accumulation of `Chain::build`: `usage |= link.usage` for
every collected link. -/
def collect_usage {T U : Type} [DecidableEq T] [DecidableEq U] (id : Nat)
    (orU : U → U → U) (usage : U) (passes : List (PassLinks T U)) : U :=
  passes.foldl (fun u pass =>
    match pass.links.find? (fun link => link.id == id) with
    | some link => orU u link.usage
    | Option.none => u) usage

/-- Step 2 of `Chain::build` (the read-merge loop body), iterated over the
index list `ids`.  A missing current link is `continue`; a missing next link
is `break` (return the ring as is). -/
def merge_pass {T A S W : Type} (ops : StateOps T A) :
    List Nat → List (Option (ChainLink T S W)) → List (Option (ChainLink T S W))
  | [], links => links
  | index :: rest, links =>
    match getl links index with
    | Option.none => merge_pass ops rest links
    | some link =>
      match find_next links index with
      | Option.none => links
      | some j =>
        match getl links j with
        | Option.none => links
        | some next =>
          match ops.merge link.state next.state with
          | some state =>
            if link.queue = next.queue then
              let stages := link.stages ||| next.stages
              let links' := setl links index
                { link with merged_state := state, merged_stages := stages }
              let links' := setl links' j
                { next with merged_state := state, merged_stages := stages }
              merge_pass ops rest links'
            else merge_pass ops rest links
          | Option.none => merge_pass ops rest links

/-- Step 3 of `Chain::build` (the synchronization-resolution loop body),
iterated over `ids`, threading the semaphore-allocation counter `c`.  The
four source match arms are translated, in order, to the if chain. -/
def sync_pass {T A S W : Type} [DecidableEq T] (ops : StateOps T A)
    (alloc : Nat → S × W) :
    List Nat → Nat → List (Option (ChainLink T S W)) →
      List (Option (ChainLink T S W))
  | [], _, links => links
  | index :: rest, c, links =>
    match getl links index with
    | Option.none => sync_pass ops alloc rest c links
    | some link =>
      match find_next links index with
      | Option.none => links
      | some j =>
        match getl links j with
        | Option.none => links
        | some next =>
          let start :=
            if ops.is_read (ops.accessOf next.state) then link.merged_state
            else ops.discard_content link.merged_state
          let states := (start, next.merged_state)
          let stages := (link.merged_stages, next.merged_stages)
          if (ops.merge link.state next.state).isSome = true ∧
              link.queue = next.queue then
            -- already merged in step 2
            sync_pass ops alloc rest c links
          else if link.queue = next.queue then
            -- incompatible states on the same queue: barrier
            let links' := setl links index
              { link with release := LinkSync.barrier states stages }
            sync_pass ops alloc rest c links'
          else if link.queue.family = next.queue.family then
            -- different queues from the same family
            let sw := alloc c
            let states' := (ops.with_no_access states.1, ops.with_no_access states.2)
            if states'.1 = states'.2 then
              let links' := setl links index
                { link with release := LinkSync.semaphore sw.1 }
              let links' := setl links' j
                { next with acquire := LinkSync.semaphore sw.2 }
              sync_pass ops alloc rest (c + 1) links'
            else
              let links' := setl links index
                { link with release := LinkSync.barrierSemaphore sw.1 states' stages }
              let links' := setl links' j
                { next with acquire := LinkSync.semaphore sw.2 }
              sync_pass ops alloc rest (c + 1) links'
          else
            -- different queue families: ownership transfer on both ends
            let sw := alloc c
            let states' := (ops.with_no_access states.1, ops.with_no_access states.2)
            let links' := setl links index
              { link with release := LinkSync.transfer sw.1 states' stages next.queue }
            let links' := setl links' j
              { next with acquire := LinkSync.transfer sw.2 states' stages link.queue }
            sync_pass ops alloc rest (c + 1) links'

/-- `Chain::build` from `src/chain.rs`. -/
def Chain.build {T A U I S W : Type} [DecidableEq T] [DecidableEq U]
    (ops : StateOps T A) (orU : U → U → U) (id : Nat) (usage : U) (init : I)
    (passes : List (PassLinks T U)) (alloc : Nat → S × W) :
    Option (Chain T U I S W) :=
  let usage' := collect_usage id orU usage passes
  let links : List (Option (ChainLink T S W)) := collect id passes
  let count := links.length
  let links := merge_pass ops ((List.range (count * 2)).map (fun i => i % count)) links
  let links := sync_pass ops alloc (List.range count) 0 links
  if links.all Option.isNone then Option.none
  else some { usage := usage', init := init, links := links }

/-- `Chain::link` (`self.links[index].as_ref().unwrap()`), the unwrap panic
modelled as `none`. -/
def Chain.link {T U I S W : Type} (c : Chain T U I S W) (index : Nat) :
    Option (ChainLink T S W) :=
  getl c.links index

/-- Index of the first existing link (`Chain::first_mut` walks
`iter_mut().filter_map(Option::as_mut).next()`). -/
def first_index {T S W : Type} (links : List (Option (ChainLink T S W))) :
    Option Nat :=
  links.findIdx? Option.isSome

/-- Index of the last existing link (`Chain::last_mut` walks the reversed
ring). -/
def last_index {T S W : Type} (links : List (Option (ChainLink T S W))) :
    Option Nat :=
  (links.reverse.findIdx? Option.isSome).map (fun k => links.length - 1 - k)

/-- `hal::command::ClearValue` (opaque here). -/
abbrev ClearValue := Nat

/-- `hal::pass::AttachmentLoadOp`. -/
inductive AttachmentLoadOp where
  | Load
  | Clear
  | DontCare
deriving DecidableEq

/-- `hal::pass::AttachmentStoreOp`. -/
inductive AttachmentStoreOp where
  | Store
  | DontCare
deriving DecidableEq

/-- `ImageInit` from `src/utils/init.rs`. -/
inductive ImageInit where
  | Load
  | DontCare
  | Clear (value : ClearValue)
deriving DecidableEq

/-- `ImageInit::load_op` from `src/utils/init.rs`. -/
def ImageInit.load_op : ImageInit → AttachmentLoadOp
  | ImageInit.Clear _ => AttachmentLoadOp.Clear
  | ImageInit.Load => AttachmentLoadOp.Load
  | ImageInit.DontCare => AttachmentLoadOp.DontCare

/-- `ImageInit::clear_value` from `src/utils/init.rs`. -/
def ImageInit.clear_value : ImageInit → Option ClearValue
  | ImageInit.Clear value => some value
  | _ => Option.none

/-- `hal::image::Usage` bitmask. -/
abbrev ImageUsage := Nat

/-- `ImageChain` from `src/image/mod.rs`. -/
abbrev ImageChain (S W : Type) := Chain ImageState ImageUsage ImageInit S W

/-- `ImageChain::load_op` from `src/image/mod.rs` (`self.link(index)`
panics on an absent link, modelled as `none`). -/
def ImageChain.load_op {S W : Type} (c : ImageChain S W) (index : Nat) :
    Option AttachmentLoadOp :=
  (c.link index).map (fun link =>
    if ImageAccess.is_read link.state.1 then AttachmentLoadOp.Load
    else c.init.load_op)

/-- `ImageChain::store_op` from `src/image/mod.rs`: scan the slots strictly
after `index` (`self.links[index + 1..]`) for a reading link. -/
def ImageChain.store_op {S W : Type} (c : ImageChain S W) (index : Nat) :
    AttachmentStoreOp :=
  if (c.links.drop (index + 1)).any (fun slot =>
      (slot.map (fun link => ImageAccess.is_read link.state.1)).getD false) then
    AttachmentStoreOp.Store
  else AttachmentStoreOp.DontCare

/-- `ImageChain::clear_value` from `src/image/mod.rs`. -/
def ImageChain.clear_value {S W : Type} (c : ImageChain S W) (index : Nat) :
    Option ClearValue :=
  match c.load_op index with
  | some AttachmentLoadOp.Clear => c.init.clear_value
  | _ => Option.none

/-- `ImageChain::with_presentable_sync` from `src/image/mod.rs`, its two
`panic!`s (a boundary link already synchronized) and the `first_mut`/
`last_mut` unwraps modelled as `none`.  The source writes the transferred
queue field as `queue: link.queue`; the `Transfer` variant's field is
`other`. -/
def ImageChain.with_presentable_sync {S W : Type} (c : ImageChain S W)
    (acquire : W) (fromLayout : ImageLayout) (release : S)
    (toLayout : ImageLayout) : Option (ImageChain S W) :=
  match first_index c.links with
  | Option.none => Option.none
  | some i =>
    match getl c.links i with
    | Option.none => Option.none
    | some link =>
      match link.acquire with
      | LinkSync.none =>
        let link' := { link with
          acquire := LinkSync.transfer acquire ((0, fromLayout), link.state)
            (PipelineStage.BOTTOM_OF_PIPE, link.stages) link.queue }
        let links' := setl c.links i link'
        match last_index links' with
        | Option.none => Option.none
        | some k =>
          match getl links' k with
          | Option.none => Option.none
          | some last =>
            match last.release with
            | LinkSync.none =>
              let last' := { last with
                release := LinkSync.transfer release (last.state, (0, toLayout))
                  (last.stages, PipelineStage.TOP_OF_PIPE) last.queue }
              some { c with links := setl links' k last' }
            | _ => Option.none
      | _ => Option.none

/-! Concrete rings used by witnesses and counterexamples. -/

/-- A queue on family 0. -/
def queueA : QueueId := { index := 0, family := { id := 0 } }

/-- A second queue on family 0. -/
def queueB : QueueId := { index := 1, family := { id := 0 } }

/-- A queue on family 1. -/
def queueC : QueueId := { index := 0, family := { id := 1 } }

/-- A pass reading an image in a shader on `queueA`. -/
def readImagePass : PassLinks ImageState ImageUsage where
  queue := queueA
  links := [{ id := 0, stages := 4,
              state := (ImageAccess.SHADER_READ, ImageLayout.ShaderReadOnlyOptimal),
              usage := 1 }]

/-- A pass writing an image as color attachment on `queueA`. -/
def writeImagePass : PassLinks ImageState ImageUsage where
  queue := queueA
  links := [{ id := 0, stages := 8,
              state := (ImageAccess.COLOR_ATTACHMENT_WRITE, ImageLayout.ColorAttachmentOptimal),
              usage := 2 }]

/-- The image chain built from the two-pass ring read-then-write on one
queue. -/
def imageChainRW : Option (ImageChain Nat Nat) :=
  Chain.build imageStateOps (fun a b => a ||| b) 0 0 ImageInit.DontCare
    [readImagePass, writeImagePass] (fun k => (2 * k, 2 * k + 1))

/-! ## Claim C5 -/

/-- Claim C5, counterexample: a buffer state whose access mask contains
`SHADER_WRITE` (write participation) still merges with a read state, because
`merge` tests `is_read` on both sides, not the absence of writes; the claim
says any write participation forces `None`. -/
theorem merge_read_write_mask_still_merges :
    BufferAccess.is_write (BufferAccess.SHADER_READ ||| BufferAccess.SHADER_WRITE) = true ∧
    bufferStateOps.merge (BufferAccess.SHADER_READ ||| BufferAccess.SHADER_WRITE)
        BufferAccess.SHADER_READ
      = some (BufferAccess.SHADER_READ ||| BufferAccess.SHADER_WRITE) := by
  decide

/-- Claim C5, amended: `State::merge(a,b)` (either category) returns `Some`
iff both access masks contain at least one recognized read flag (`is_read`) —
write flags alongside a read flag do not prevent the merge — and, for images,
the two layouts merge; on success the result ORs the access masks and, for
images, carries the merged layout. -/
theorem merge_succeeds_iff_both_read :
    (∀ a b : BufferState, (bufferStateOps.merge a b).isSome = true ↔
        (BufferAccess.is_read a = true ∧ BufferAccess.is_read b = true)) ∧
    (∀ a b m : BufferState, bufferStateOps.merge a b = some m → m = a ||| b) ∧
    (∀ a b : ImageState, (imageStateOps.merge a b).isSome = true ↔
        (ImageAccess.is_read a.1 = true ∧ ImageAccess.is_read b.1 = true ∧
          (common_image_layout a.2 b.2).isSome = true)) ∧
    (∀ a b m : ImageState, imageStateOps.merge a b = some m →
        m.1 = a.1 ||| b.1 ∧ common_image_layout a.2 b.2 = some m.2) := by
  refine ⟨fun a b => ?_, fun a b m h => ?_, fun a b => ?_, fun a b m h => ?_⟩
  · show ((if BufferAccess.is_read a ∧ BufferAccess.is_read b then
        some (a ||| b) else Option.none)).isSome = true ↔ _
    by_cases h1 : BufferAccess.is_read a = true <;>
      by_cases h2 : BufferAccess.is_read b = true <;> simp [h1, h2]
  · revert h
    show (if BufferAccess.is_read a ∧ BufferAccess.is_read b then
        some (a ||| b) else Option.none) = some m → m = a ||| b
    by_cases hr : BufferAccess.is_read a ∧ BufferAccess.is_read b
    · rw [if_pos hr]
      intro h
      exact (Option.some.inj h).symm
    · rw [if_neg hr]
      intro h
      exact absurd h (by simp)
  · show ((if ImageAccess.is_read a.1 ∧ ImageAccess.is_read b.1 then
        (common_image_layout a.2 b.2).map (fun l => (a.1 ||| b.1, l))
        else Option.none)).isSome = true ↔ _
    by_cases h1 : ImageAccess.is_read a.1 = true <;>
      by_cases h2 : ImageAccess.is_read b.1 = true <;>
      cases hcl : common_image_layout a.2 b.2 <;> simp [h1, h2, hcl]
  · revert h
    show (if ImageAccess.is_read a.1 ∧ ImageAccess.is_read b.1 then
        (common_image_layout a.2 b.2).map (fun l => (a.1 ||| b.1, l))
        else Option.none) = some m → _
    by_cases h1 : ImageAccess.is_read a.1 = true <;>
      by_cases h2 : ImageAccess.is_read b.1 = true <;>
      cases hcl : common_image_layout a.2 b.2 <;> simp [h1, h2, hcl] <;>
      intro h <;> simp [← h]

/-- Witness for the amended C5 at concrete states: a read-only merge
succeeds and produces the ORed mask. -/
theorem merge_succeeds_iff_both_read_witness :
    (bufferStateOps.merge BufferAccess.SHADER_READ BufferAccess.TRANSFER_READ).isSome = true ∧
    ((BufferAccess.SHADER_READ : Nat) ||| BufferAccess.TRANSFER_READ)
      = BufferAccess.SHADER_READ ||| BufferAccess.TRANSFER_READ := by
  refine ⟨(merge_succeeds_iff_both_read.1 BufferAccess.SHADER_READ
    BufferAccess.TRANSFER_READ).mpr ⟨by decide, by decide⟩, rfl⟩

/-! ## Claim C9 -/

/-- Claim C9, counterexample: `common_image_layout(Present, Present)` does
not panic — the `x == y` match arm fires before the `Present` panic arm and
returns `Present`. -/
theorem common_image_layout_present_present :
    common_image_layout ImageLayout.Present ImageLayout.Present
      = some ImageLayout.Present := by
  decide

/-- Claim C9, amended: for every pair of image layouts in which at least one
side is `Present` and the two sides differ, `common_image_layout` panics
(modelled as `none`); the equal pair `(Present, Present)` instead returns
`Present` through the equality arm. -/
theorem common_image_layout_present_mismatch_fails :
    ∀ l r : ImageLayout,
      (l = ImageLayout.Present ∨ r = ImageLayout.Present) → l ≠ r →
      common_image_layout l r = Option.none := by
  decide

/-- Witness for the amended C9 at the concrete pair `(Present, General)`. -/
theorem common_image_layout_present_mismatch_fails_witness :
    common_image_layout ImageLayout.Present ImageLayout.General = Option.none :=
  common_image_layout_present_mismatch_fails ImageLayout.Present
    ImageLayout.General (Or.inl rfl) (by decide)

/-! ## Claim C10 -/

/-- Claim C10: state merge is commutative in both resource categories —
`merge(a,b)` and `merge(b,a)` agree (both fail or both succeed with equal
results), and the underlying layout merge `common_image_layout` is symmetric. -/
theorem merge_comm :
    (∀ a b : BufferState, bufferStateOps.merge a b = bufferStateOps.merge b a) ∧
    (∀ a b : ImageState, imageStateOps.merge a b = imageStateOps.merge b a) ∧
    (∀ l r : ImageLayout, common_image_layout l r = common_image_layout r l) := by
  have hcl : ∀ l r : ImageLayout, common_image_layout l r = common_image_layout r l := by
    decide
  refine ⟨fun a b => ?_, fun a b => ?_, hcl⟩
  · show (if BufferAccess.is_read a ∧ BufferAccess.is_read b then
        some (a ||| b) else Option.none) =
      (if BufferAccess.is_read b ∧ BufferAccess.is_read a then
        some (b ||| a) else Option.none)
    by_cases h1 : BufferAccess.is_read a = true <;>
      by_cases h2 : BufferAccess.is_read b = true <;> simp [h1, h2, Nat.lor_comm]
  · show (if ImageAccess.is_read a.1 ∧ ImageAccess.is_read b.1 then
        (common_image_layout a.2 b.2).map (fun l => (a.1 ||| b.1, l))
        else Option.none) =
      (if ImageAccess.is_read b.1 ∧ ImageAccess.is_read a.1 then
        (common_image_layout b.2 a.2).map (fun l => (b.1 ||| a.1, l))
        else Option.none)
    by_cases h1 : ImageAccess.is_read a.1 = true <;>
      by_cases h2 : ImageAccess.is_read b.1 = true <;>
      simp [h1, h2, Nat.lor_comm, hcl a.2 b.2]

/-! ## Claim C7 -/

/-- Claim C7, counterexample: in the built two-pass image chain
read-at-0, write-at-1, `store_op 1` answers "don't care" although pass 0
reads the resource and is the next user in ring order — the scan
`self.links[index + 1..]` does not wrap around the ring. -/
theorem store_op_ignores_wraparound_reader :
    imageChainRW.isSome = true ∧
    imageChainRW.map (fun c => c.store_op 1) = some AttachmentStoreOp.DontCare ∧
    imageChainRW.map (fun c => (c.link 0).map (fun l => ImageAccess.is_read l.state.1))
      = some (some true) := by
  decide

/-- Claim C7, amended: for every image chain and every in-bounds index `i`,
`store_op i` answers "store" iff some pass at an index strictly greater than
`i` (no wrap-around) declares a state that reads the resource; otherwise
"don't care". -/
theorem store_op_store_iff_later_reader {S W : Type} (c : ImageChain S W)
    (i : Nat) (h : i < c.links.length) :
    c.store_op i = AttachmentStoreOp.Store ↔
      ∃ j l, i < j ∧ getl c.links j = some l ∧
        ImageAccess.is_read l.state.1 = true := by
  clear h
  unfold ImageChain.store_op
  constructor
  · intro hs
    by_cases hc : (c.links.drop (i + 1)).any (fun slot =>
        (slot.map (fun link => ImageAccess.is_read link.state.1)).getD false) = true
    · rw [List.any_eq_true] at hc
      obtain ⟨slot, hmem, hp⟩ := hc
      obtain ⟨k, hk⟩ := List.mem_iff_getElem?.mp hmem
      rw [List.getElem?_drop] at hk
      match slot, hp with
      | some link, hp =>
        refine ⟨i + 1 + k, link, by omega, ?_, by simpa using hp⟩
        unfold getl
        simp [hk]
    · simp [hc] at hs
  · rintro ⟨j, l, hij, hget, hread⟩
    have hj : c.links[j]? = some (some l) := by
      unfold getl at hget
      cases hcl : c.links[j]? with
      | none => rw [hcl] at hget; simp at hget
      | some v => rw [hcl] at hget; simp at hget; rw [hget]
    have hmem : (some l) ∈ c.links.drop (i + 1) := by
      rw [List.mem_iff_getElem?]
      refine ⟨j - (i + 1), ?_⟩
      rw [List.getElem?_drop, show i + 1 + (j - (i + 1)) = j by omega]
      exact hj
    have hany : (c.links.drop (i + 1)).any (fun slot =>
        (slot.map (fun link => ImageAccess.is_read link.state.1)).getD false) = true := by
      rw [List.any_eq_true]
      exact ⟨some l, hmem, by simpa using hread⟩
    simp [hany]

/-- An unsynchronized resolved link writing an image on `queueA`. -/
def litWriteLink : ChainLink ImageState Nat Nat where
  queue := queueA
  stages := 8
  state := (ImageAccess.COLOR_ATTACHMENT_WRITE, ImageLayout.ColorAttachmentOptimal)
  merged_state := (ImageAccess.COLOR_ATTACHMENT_WRITE, ImageLayout.ColorAttachmentOptimal)
  merged_stages := 8
  acquire := LinkSync.none
  release := LinkSync.none

/-- An unsynchronized resolved link reading an image on `queueA`. -/
def litReadLink : ChainLink ImageState Nat Nat where
  queue := queueA
  stages := 4
  state := (ImageAccess.SHADER_READ, ImageLayout.ShaderReadOnlyOptimal)
  merged_state := (ImageAccess.SHADER_READ, ImageLayout.ShaderReadOnlyOptimal)
  merged_stages := 4
  acquire := LinkSync.none
  release := LinkSync.none

/-- A literal two-link image chain: write at index 0, read at index 1. -/
def imageChainWR : ImageChain Nat Nat where
  usage := 0
  init := ImageInit.DontCare
  links := [some litWriteLink, some litReadLink]

/-- Witness for the amended C7: in `imageChainWR` the pass at index 1 reads,
so `store_op 0` answers "store". -/
theorem store_op_store_iff_later_reader_witness :
    imageChainWR.store_op 0 = AttachmentStoreOp.Store :=
  (store_op_store_iff_later_reader imageChainWR 0 (by decide)).mpr
    ⟨1, litReadLink, by decide, by decide, by decide⟩



theorem length_setl {T S W : Type} (links : List (Option (ChainLink T S W)))
    (j : Nat) (cl : ChainLink T S W) : (setl links j cl).length = links.length :=
  List.length_set ..

theorem getl_setl_self {T S W : Type} {links : List (Option (ChainLink T S W))}
    {j : Nat} (h : j < links.length) (cl : ChainLink T S W) :
    getl (setl links j cl) j = some cl := by
  unfold getl setl
  rw [List.getElem?_set_eq_of_lt _ h]
  rfl

theorem getl_setl_ne {T S W : Type} {links : List (Option (ChainLink T S W))}
    {i j : Nat} (h : i ≠ j) (cl : ChainLink T S W) :
    getl (setl links j cl) i = getl links i := by
  unfold getl setl
  rw [List.getElem?_set_ne (fun hh => h hh.symm)]

theorem getl_isSome_lt {T S W : Type} {links : List (Option (ChainLink T S W))}
    {i : Nat} (h : (getl links i).isSome = true) : i < links.length := by
  by_contra hlt
  unfold getl at h
  rw [List.getElem?_eq_none (by omega)] at h
  simp at h

theorem isSome_getl_setl {T S W : Type} {links : List (Option (ChainLink T S W))}
    {j : Nat} (hj : (getl links j).isSome = true) (cl : ChainLink T S W) (i : Nat) :
    (getl (setl links j cl) i).isSome = (getl links i).isSome := by
  by_cases hij : i = j
  · subst hij
    rw [getl_setl_self (getl_isSome_lt hj) cl]
    simp [hj]
  · rw [getl_setl_ne hij]

theorem find_next_isSome {T S W : Type} {links : List (Option (ChainLink T S W))}
    {index j : Nat} (h : find_next links index = some j) :
    (getl links j).isSome = true := by
  unfold find_next at h
  have := List.find?_some h
  simpa using this

theorem merge_pass_sameExist {T A S W : Type} (ops : StateOps T A)
    (ids : List Nat) (links : List (Option (ChainLink T S W))) :
    (merge_pass ops ids links).length = links.length ∧
    ∀ i, (getl (merge_pass ops ids links) i).isSome = (getl links i).isSome := by
  induction ids generalizing links with
  | nil => exact ⟨rfl, fun i => rfl⟩
  | cons index rest ih =>
    rw [merge_pass]
    cases hcur : getl links index with
    | none => exact ih links
    | some link =>
      dsimp only
      cases hfn : find_next links index with
      | none => exact ⟨rfl, fun i => rfl⟩
      | some j =>
        dsimp only
        cases hnext : getl links j with
        | none => exact ⟨rfl, fun i => rfl⟩
        | some next =>
          dsimp only
          cases hm : ops.merge link.state next.state with
          | none => exact ih links
          | some state =>
            dsimp only
            by_cases hq : link.queue = next.queue
            · rw [if_pos hq]
              have hs1 : (getl links index).isSome = true := by simp [hcur]
              have hs2 : (getl links j).isSome = true := by simp [hnext]
              obtain ⟨hl, he⟩ := ih (setl (setl links index
                { link with merged_state := state,
                            merged_stages := link.stages ||| next.stages }) j
                { next with merged_state := state,
                            merged_stages := link.stages ||| next.stages })
              refine ⟨by rw [hl, length_setl, length_setl], fun i => ?_⟩
              rw [he i, isSome_getl_setl (by rw [isSome_getl_setl hs1]; exact hs2) _ i,
                isSome_getl_setl hs1 _ i]
            · rw [if_neg hq]
              exact ih links

theorem double_setl_sameExist {T S W : Type}
    {links : List (Option (ChainLink T S W))} {index j : Nat}
    (hs1 : (getl links index).isSome = true)
    (hs2 : (getl links j).isSome = true) (cl1 cl2 : ChainLink T S W) :
    (setl (setl links index cl1) j cl2).length = links.length ∧
    ∀ i, (getl (setl (setl links index cl1) j cl2) i).isSome
      = (getl links i).isSome := by
  refine ⟨by rw [length_setl, length_setl], fun i => ?_⟩
  rw [isSome_getl_setl (by rw [isSome_getl_setl hs1]; exact hs2) cl2 i,
    isSome_getl_setl hs1 cl1 i]

theorem sync_pass_sameExist {T A S W : Type} [DecidableEq T] (ops : StateOps T A)
    (alloc : Nat → S × W) (ids : List Nat) (c : Nat)
    (links : List (Option (ChainLink T S W))) :
    (sync_pass ops alloc ids c links).length = links.length ∧
    ∀ i, (getl (sync_pass ops alloc ids c links) i).isSome
      = (getl links i).isSome := by
  induction ids generalizing links c with
  | nil => exact ⟨rfl, fun i => rfl⟩
  | cons index rest ih =>
    rw [sync_pass]
    cases hcur : getl links index with
    | none => exact ih c links
    | some link =>
      dsimp only
      cases hfn : find_next links index with
      | none => exact ⟨rfl, fun i => rfl⟩
      | some j =>
        dsimp only
        cases hnext : getl links j with
        | none => exact ⟨rfl, fun i => rfl⟩
        | some next =>
          dsimp only
          have hs1 : (getl links index).isSome = true := by simp [hcur]
          have hs2 : (getl links j).isSome = true := by simp [hnext]
          by_cases hmq : (ops.merge link.state next.state).isSome = true ∧
              link.queue = next.queue
          · rw [if_pos hmq]
            exact ih c links
          · rw [if_neg hmq]
            by_cases hq : link.queue = next.queue
            · rw [if_pos hq]
              exact ⟨(ih c _).1.trans (length_setl ..),
                fun i => ((ih c _).2 i).trans (isSome_getl_setl hs1 _ i)⟩
            · rw [if_neg hq]
              by_cases hf : link.queue.family = next.queue.family
              · rw [if_pos hf]
                repeat' split
                all_goals
                  exact ⟨(ih (c + 1) _).1.trans
                      (double_setl_sameExist hs1 hs2 _ _).1,
                    fun i => ((ih (c + 1) _).2 i).trans
                      ((double_setl_sameExist hs1 hs2 _ _).2 i)⟩
              · rw [if_neg hf]
                exact ⟨(ih (c + 1) _).1.trans
                    (double_setl_sameExist hs1 hs2 _ _).1,
                  fun i => ((ih (c + 1) _).2 i).trans
                    ((double_setl_sameExist hs1 hs2 _ _).2 i)⟩

theorem getl_collect {T U S W : Type} [DecidableEq T] [DecidableEq U]
    (id : Nat) (passes : List (PassLinks T U)) (i : Nat) :
    getl (collect (S := S) (W := W) id passes) i =
      match passes[i]? with
      | some pass => (pass.links.find? (fun link => link.id == id)).map
          (fun link =>
            { queue := pass.queue, stages := link.stages, state := link.state,
              merged_state := link.state, merged_stages := link.stages,
              acquire := LinkSync.none, release := LinkSync.none })
      | Option.none => Option.none := by
  unfold collect getl
  rw [List.getElem?_map]
  cases passes[i]? <;> rfl

theorem length_collect {T U S W : Type} [DecidableEq T] [DecidableEq U]
    (id : Nat) (passes : List (PassLinks T U)) :
    (collect (S := S) (W := W) id passes).length = passes.length :=
  List.length_map ..

theorem all_isNone_iff {T S W : Type} (links : List (Option (ChainLink T S W))) :
    links.all Option.isNone = true ↔ ∀ i, (getl links i).isSome = false := by
  rw [List.all_eq_true]
  constructor
  · intro h i
    unfold getl
    cases hx : links[i]? with
    | none => rfl
    | some x =>
      have hmem : x ∈ links := List.getElem?_mem hx
      have := h x hmem
      cases x with
      | none => rfl
      | some v => simp at this
  · intro h x hmem
    obtain ⟨i, hi⟩ := List.mem_iff_getElem?.mp hmem
    have hx := h i
    unfold getl at hx
    rw [hi] at hx
    cases x with
    | none => rfl
    | some v => simp at hx

/-- The ring produced by the two loops of `Chain::build` is all-absent iff
no pass declares a link for `id`. -/
theorem final_all_isNone_iff {T A U S W : Type} [DecidableEq T] [DecidableEq U]
    (ops : StateOps T A) (alloc : Nat → S × W) (id : Nat)
    (passes : List (PassLinks T U)) (ids1 ids2 : List Nat) (c : Nat) :
    ((sync_pass ops alloc ids2 c
        (merge_pass ops ids1 (collect id passes))).all Option.isNone = true)
      ↔ ∀ p ∈ passes, p.links.find? (fun link => link.id == id) = Option.none := by
  rw [all_isNone_iff]
  have hsync := sync_pass_sameExist ops alloc ids2 c
    (merge_pass ops ids1 (collect id passes))
  have hmerge := merge_pass_sameExist ops ids1 (collect (S := S) (W := W) id passes)
  constructor
  · intro h p hmem
    obtain ⟨i, hi⟩ := List.mem_iff_getElem?.mp hmem
    have hx := h i
    rw [hsync.2 i, hmerge.2 i, getl_collect, hi] at hx
    dsimp only at hx
    cases hf : p.links.find? (fun link => link.id == id) with
    | none => rfl
    | some l => rw [hf] at hx; simp at hx
  · intro h i
    rw [hsync.2 i, hmerge.2 i, getl_collect]
    cases hi : passes[i]? with
    | none => rfl
    | some p =>
      dsimp only
      rw [h p (List.getElem?_mem hi)]
      rfl

/-- Claim C6: `Chain::build` returns an absent chain (`None`) exactly when
no pass declares a link for the chain identifier; when at least one pass
declares a matching link a present chain is returned.  The absence is the
ordinary `None` value of the result, not a panic. -/
theorem build_none_iff_no_pass_declares {T A U I S W : Type}
    [DecidableEq T] [DecidableEq U] (ops : StateOps T A) (orU : U → U → U)
    (id : Nat) (usage : U) (init : I) (passes : List (PassLinks T U))
    (alloc : Nat → S × W) :
    Chain.build ops orU id usage init passes alloc
        = (Option.none : Option (Chain T U I S W))
      ↔ ∀ p ∈ passes, p.links.find? (fun link => link.id == id) = Option.none := by
  unfold Chain.build
  dsimp only
  split
  case isTrue h =>
    exact iff_of_true rfl ((final_all_isNone_iff ops alloc id passes _ _ _).mp h)
  case isFalse h =>
    exact iff_of_false (by simp)
      (fun hall => h ((final_all_isNone_iff ops alloc id passes _ _ _).mpr hall))

/-- Witness for C6 in both directions on concrete rings. -/
theorem build_none_iff_no_pass_declares_witness :
    (Chain.build (I := Unit) (S := Nat) (W := Nat) imageStateOps
        (fun a b => a ||| b) 7 0 () [readImagePass] (fun k => (k, k))
      = Option.none) ∧
    (Chain.build (I := Unit) (S := Nat) (W := Nat) imageStateOps
        (fun a b => a ||| b) 0 0 () [readImagePass] (fun k => (k, k))
      ≠ Option.none) := by
  constructor
  · exact (build_none_iff_no_pass_declares imageStateOps _ 7 0 () [readImagePass]
      (fun k => (k, k))).mpr (by decide)
  · intro h
    have := (build_none_iff_no_pass_declares imageStateOps (fun a b => a ||| b)
      0 0 () [readImagePass] (fun k => (k, k))).mp h
    have h0 := this readImagePass (by simp)
    revert h0
    decide

/-- All-uniform read ring: `merge_pass` keeps every link's state, queue,
merged state `s` and no-op decisions (only `merged_stages` may change). -/
theorem merge_pass_uniform {T A S W : Type} (ops : StateOps T A) (q : QueueId)
    (s : T) (hm : ops.merge s s = some s) (ids : List Nat) :
    ∀ links : List (Option (ChainLink T S W)),
      (∀ i cl, getl links i = some cl → cl.state = s ∧ cl.queue = q ∧
        cl.merged_state = s ∧ cl.acquire = LinkSync.none ∧
        cl.release = LinkSync.none) →
      ∀ i cl, getl (merge_pass ops ids links) i = some cl →
        cl.state = s ∧ cl.queue = q ∧ cl.merged_state = s ∧
        cl.acquire = LinkSync.none ∧ cl.release = LinkSync.none := by
  induction ids with
  | nil => intro links h; exact h
  | cons index rest ih =>
    intro links h
    rw [merge_pass]
    cases hcur : getl links index with
    | none => exact ih links h
    | some link =>
      dsimp only
      cases hfn : find_next links index with
      | none => exact h
      | some j =>
        dsimp only
        cases hnext : getl links j with
        | none => exact h
        | some next =>
          dsimp only
          obtain ⟨hls, hlq, hlm, hla, hlr⟩ := h index link hcur
          obtain ⟨hns, hnq, hnm, hna, hnr⟩ := h j next hnext
          cases hm2 : ops.merge link.state next.state with
          | none =>
            rw [hls, hns, hm] at hm2
            exact absurd hm2 (by simp)
          | some state =>
            dsimp only
            rw [if_pos (hlq.trans hnq.symm)]
            have hstate : state = s := by
              rw [hls, hns, hm] at hm2
              exact (Option.some.inj hm2).symm
            apply ih
            intro i cl hcl
            by_cases hij : i = j
            · subst hij
              rw [getl_setl_self (by
                rw [length_setl]
                exact getl_isSome_lt (by simp [hnext])) _] at hcl
              have hc := Option.some.inj hcl
              rw [← hc]
              exact ⟨hns, hnq, hstate, hna, hnr⟩
            · rw [getl_setl_ne hij] at hcl
              by_cases hii : i = index
              · subst hii
                rw [getl_setl_self (getl_isSome_lt (by simp [hcur])) _] at hcl
                have hc := Option.some.inj hcl
                rw [← hc]
                exact ⟨hls, hlq, hstate, hla, hlr⟩
              · rw [getl_setl_ne hii] at hcl
                exact h i cl hcl

/-- All-uniform read ring: `sync_pass` changes nothing — every transition
falls into the already-merged arm. -/
theorem sync_pass_uniform_id {T A S W : Type} [DecidableEq T]
    (ops : StateOps T A) (alloc : Nat → S × W) (q : QueueId) (s : T)
    (hm : ops.merge s s = some s) (links : List (Option (ChainLink T S W)))
    (h : ∀ i cl, getl links i = some cl → cl.state = s ∧ cl.queue = q ∧
      cl.merged_state = s ∧ cl.acquire = LinkSync.none ∧
      cl.release = LinkSync.none) :
    ∀ (ids : List Nat) (c : Nat), sync_pass ops alloc ids c links = links := by
  intro ids
  induction ids with
  | nil => intro c; rfl
  | cons index rest ih =>
    intro c
    rw [sync_pass]
    cases hcur : getl links index with
    | none => exact ih c
    | some link =>
      dsimp only
      cases hfn : find_next links index with
      | none => rfl
      | some j =>
        dsimp only
        cases hnext : getl links j with
        | none => rfl
        | some next =>
          dsimp only
          obtain ⟨hls, hlq, hlm, hla, hlr⟩ := h index link hcur
          obtain ⟨hns, hnq, hnm, hna, hnr⟩ := h j next hnext
          rw [if_pos ⟨by rw [hls, hns, hm]; rfl, hlq.trans hnq.symm⟩]
          exact ih c

/-- Claim C1: for a ring in which every pass declares a link for `id` with
one common self-mergeable (read-only) state `s` on one queue `q`,
`Chain::build` returns a chain in which every link exists, carries merged
state `s`, and both its acquire and release decisions are the no-op
variant. -/
theorem build_all_read_same_queue_merges_no_sync {T A U I S W : Type}
    [DecidableEq T] [DecidableEq U] (ops : StateOps T A) (orU : U → U → U)
    (id : Nat) (usage : U) (init : I) (passes : List (PassLinks T U))
    (alloc : Nat → S × W) (q : QueueId) (s : T)
    (hq : ∀ p ∈ passes, p.queue = q)
    (hs : ∀ p ∈ passes, ∃ lk, p.links.find? (fun l => l.id == id) = some lk ∧
      lk.state = s)
    (hm : ops.merge s s = some s) (hne : passes ≠ []) :
    ∃ ch : Chain T U I S W,
      Chain.build ops orU id usage init passes alloc = some ch ∧
      ch.links.length = passes.length ∧
      ∀ i, i < passes.length → ∃ cl, getl ch.links i = some cl ∧
        cl.merged_state = s ∧ cl.acquire = LinkSync.none ∧
        cl.release = LinkSync.none := by
  have hcoll_uniform : ∀ i cl, getl (collect (S := S) (W := W) id passes) i
      = some cl → cl.state = s ∧ cl.queue = q ∧ cl.merged_state = s ∧
      cl.acquire = LinkSync.none ∧ cl.release = LinkSync.none := by
    intro i cl hcl
    rw [getl_collect] at hcl
    cases hi : passes[i]? with
    | none => rw [hi] at hcl; exact absurd hcl (by simp)
    | some p =>
      rw [hi] at hcl
      dsimp only at hcl
      obtain ⟨lk, hfind, hstate⟩ := hs p (List.getElem?_mem hi)
      rw [hfind] at hcl
      have hc := Option.some.inj hcl
      rw [← hc]
      exact ⟨hstate, hq p (List.getElem?_mem hi), hstate, rfl, rfl⟩
  have hcoll_some : ∀ i, i < passes.length →
      (getl (collect (S := S) (W := W) id passes) i).isSome = true := by
    intro i hi
    rw [getl_collect, List.getElem?_eq_getElem hi]
    dsimp only
    obtain ⟨lk, hfind, _⟩ := hs passes[i] (List.getElem_mem hi)
    rw [hfind]
    rfl
  have hmerge_shape := merge_pass_sameExist ops
    ((List.range ((collect (S := S) (W := W) id passes).length * 2)).map
      (fun i => i % (collect (S := S) (W := W) id passes).length))
    (collect (S := S) (W := W) id passes)
  have hL1_uniform := merge_pass_uniform ops q s hm
    ((List.range ((collect (S := S) (W := W) id passes).length * 2)).map
      (fun i => i % (collect (S := S) (W := W) id passes).length))
    (collect (S := S) (W := W) id passes) hcoll_uniform
  have hlen0 : 0 < passes.length := by
    cases passes with
    | nil => exact absurd rfl hne
    | cons a as => simp
  unfold Chain.build
  dsimp only
  rw [sync_pass_uniform_id ops alloc q s hm _ hL1_uniform]
  rw [if_neg (by
    intro hall
    rw [all_isNone_iff] at hall
    have h0 := hall 0
    rw [hmerge_shape.2 0, hcoll_some 0 (by
      rw [length_collect] at *
      exact hlen0)] at h0
    exact absurd h0 (by simp))]
  refine ⟨_, rfl, ?_, ?_⟩
  · rw [hmerge_shape.1, length_collect]
  · intro i hi
    have hsome : (getl (merge_pass ops
        ((List.range ((collect (S := S) (W := W) id passes).length * 2)).map
          (fun i => i % (collect (S := S) (W := W) id passes).length))
        (collect (S := S) (W := W) id passes)) i).isSome
        = true := by
      rw [hmerge_shape.2 i]
      exact hcoll_some i hi
    cases hgl : getl (merge_pass ops
      ((List.range ((collect (S := S) (W := W) id passes).length * 2)).map
        (fun i => i % (collect (S := S) (W := W) id passes).length))
      (collect (S := S) (W := W) id passes)) i with
    | none => rw [hgl] at hsome; exact absurd hsome (by simp)
    | some cl =>
      obtain ⟨_, _, hcm, hca, hcr⟩ := hL1_uniform i cl hgl
      exact ⟨cl, rfl, hcm, hca, hcr⟩


/-- In a ring with every slot present, the nearest next existing link after
`index` is simply the next slot, wrapping. -/
theorem find_next_all_existing {T S W : Type}
    {links : List (Option (ChainLink T S W))} {m : Nat}
    (hlen : links.length = m) (hm2 : 2 ≤ m)
    (hall : ∀ k, k < m → (getl links k).isSome = true)
    (index : Nat) :
    find_next links index = some ((index + 1) % m) := by
  unfold find_next nextIndices
  rw [hlen]
  obtain ⟨t, ht⟩ : ∃ t, m - 1 = t + 1 := ⟨m - 2, by omega⟩
  rw [ht, List.range_succ_eq_map, List.map_cons]
  simp only [Nat.add_zero]
  exact List.find?_cons_of_pos _ (hall ((index + 1) % m) (Nat.mod_lt _ (by omega)))

/-- When every ring-adjacent pair either has unmergeable states or sits on
two different queues, the step-2 loop changes nothing. -/
theorem merge_pass_id_of_unmergeable {T A S W : Type} (ops : StateOps T A)
    (m : Nat) (hm2 : 2 ≤ m) (L : Nat → ChainLink T S W)
    (hmerge : ∀ k, k < m →
      ops.merge (L k).state (L ((k + 1) % m)).state = Option.none ∨
      (L k).queue ≠ (L ((k + 1) % m)).queue)
    (ids : List Nat) (hids : ∀ x ∈ ids, x < m) :
    ∀ links : List (Option (ChainLink T S W)), links.length = m →
      (∀ k, k < m → getl links k = some (L k)) →
      merge_pass ops ids links = links := by
  induction ids with
  | nil => intro links _ _; rfl
  | cons index rest ih =>
    intro links hlen hdesc
    have hidx : index < m := hids index (by simp)
    have hall : ∀ k, k < m → (getl links k).isSome = true := by
      intro k hk
      rw [hdesc k hk]
      rfl
    rw [merge_pass, hdesc index hidx]
    dsimp only
    rw [find_next_all_existing hlen hm2 hall index]
    dsimp only
    rw [hdesc ((index + 1) % m) (Nat.mod_lt _ (by omega))]
    dsimp only
    cases hmq : ops.merge (L index).state (L ((index + 1) % m)).state with
    | none => exact ih (fun x hx => hids x (by simp [hx])) links hlen hdesc
    | some state =>
      dsimp only
      rw [if_neg (by
        cases hmerge index hidx with
        | inl h => rw [h] at hmq; exact absurd hmq (by simp)
        | inr h => exact h)]
      exact ih (fun x hx => hids x (by simp [hx])) links hlen hdesc

/-- The barrier-release link the step-3 loop writes at slot `k` of an
all-present single-queue ring described by `L` (ring length `m`). -/
def barrier_link {T A S W : Type} (ops : StateOps T A)
    (L : Nat → ChainLink T S W) (m k : Nat) : ChainLink T S W :=
  { L k with release := (LinkSync.barrier
      ((if ops.is_read (ops.accessOf (L ((k + 1) % m)).state)
        then (L k).merged_state
        else ops.discard_content (L k).merged_state),
        (L ((k + 1) % m)).merged_state)
      ((L k).merged_stages, (L ((k + 1) % m)).merged_stages)) }

theorem barrier_link_eq {T A S W : Type} (ops : StateOps T A)
    (L L' : Nat → ChainLink T S W) (m k : Nat)
    (h : ∀ j, (L' j).queue = (L j).queue ∧ (L' j).stages = (L j).stages ∧
      (L' j).state = (L j).state ∧ (L' j).merged_state = (L j).merged_state ∧
      (L' j).merged_stages = (L j).merged_stages ∧
      (L' j).acquire = (L j).acquire) :
    barrier_link ops L' m k = barrier_link ops L m k := by
  obtain ⟨h1, h2, h3, h4, h5, h6⟩ := h k
  obtain ⟨g1, g2, g3, g4, g5, g6⟩ := h ((k + 1) % m)
  simp only [barrier_link]
  rw [h1, h2, h3, h4, h5, h6, g3, g4, g5]

/-- In an all-present single-queue ring whose ring-adjacent states never
merge, the step-3 loop gives every processed link a barrier-only release
decision with the discard-adjusted state range and the merged stage range,
and touches nothing else (in particular every acquire stays as it was). -/
theorem sync_pass_barrier_desc {T A S W : Type} [DecidableEq T]
    (ops : StateOps T A) (alloc : Nat → S × W) (q : QueueId) (m : Nat)
    (hm2 : 2 ≤ m) :
    ∀ (ids : List Nat), (∀ x ∈ ids, x < m) →
    ∀ (L : Nat → ChainLink T S W), (∀ k, k < m → (L k).queue = q) →
      (∀ k, k < m →
        ops.merge (L k).state (L ((k + 1) % m)).state = Option.none) →
    ∀ (c : Nat) (links : List (Option (ChainLink T S W))), links.length = m →
      (∀ k, k < m → getl links k = some (L k)) →
      ∀ k, k < m → getl (sync_pass ops alloc ids c links) k =
        some (if k ∈ ids then barrier_link ops L m k else L k) := by
  intro ids
  induction ids with
  | nil =>
    intro _ L _ _ c links _ hdesc k hk
    rw [sync_pass, hdesc k hk]
    simp
  | cons index rest ih =>
    intro hids L hqq hmerge c links hlen hdesc k hk
    have hidx : index < m := hids index (by simp)
    have hnxt : (index + 1) % m < m := Nat.mod_lt _ (by omega)
    have hall : ∀ j, j < m → (getl links j).isSome = true := by
      intro j hj
      rw [hdesc j hj]
      rfl
    rw [sync_pass, hdesc index hidx]
    dsimp only
    rw [find_next_all_existing hlen hm2 hall index]
    dsimp only
    rw [hdesc ((index + 1) % m) hnxt]
    dsimp only
    rw [if_neg (by
      intro hcond
      rw [hmerge index hidx] at hcond
      exact absurd hcond.1 (by simp))]
    rw [if_pos ((hqq index hidx).trans (hqq ((index + 1) % m) hnxt).symm)]
    have hLfun : ∀ j, (fun j => if j = index then barrier_link ops L m index
        else L j) j = if j = index then barrier_link ops L m index else L j :=
      fun j => rfl
    have hfields : ∀ j,
        ((fun j => if j = index then barrier_link ops L m index else L j) j).queue
          = (L j).queue ∧
        ((fun j => if j = index then barrier_link ops L m index else L j) j).stages
          = (L j).stages ∧
        ((fun j => if j = index then barrier_link ops L m index else L j) j).state
          = (L j).state ∧
        ((fun j => if j = index then barrier_link ops L m index else L j) j).merged_state
          = (L j).merged_state ∧
        ((fun j => if j = index then barrier_link ops L m index else L j) j).merged_stages
          = (L j).merged_stages ∧
        ((fun j => if j = index then barrier_link ops L m index else L j) j).acquire
          = (L j).acquire := by
      intro j
      rw [hLfun j]
      by_cases hji : j = index
      · subst hji
        rw [if_pos rfl]
        exact ⟨rfl, rfl, rfl, rfl, rfl, rfl⟩
      · rw [if_neg hji]
        exact ⟨rfl, rfl, rfl, rfl, rfl, rfl⟩
    have hstep := ih (fun x hx => hids x (by simp [hx]))
      (fun j => if j = index then barrier_link ops L m index else L j)
      (by
        intro j hj
        rw [(hfields j).1]
        exact hqq j hj)
      (by
        intro j hj
        rw [(hfields j).2.2.1, (hfields ((j + 1) % m)).2.2.1]
        exact hmerge j hj)
      c (setl links index (barrier_link ops L m index))
      (by rw [length_setl]; exact hlen)
      (by
        intro j hj
        rw [hLfun j]
        by_cases hji : j = index
        · subst hji
          rw [getl_setl_self (by rw [hlen]; exact hj) _, if_pos rfl]
        · rw [getl_setl_ne hji, if_neg hji]
          exact hdesc j hj)
      k hk
    refine Eq.trans hstep ?_
    by_cases hkr : k ∈ rest
    · rw [if_pos hkr, if_pos (List.mem_cons_of_mem _ hkr)]
      rw [barrier_link_eq ops L _ m k hfields]
    · rw [if_neg hkr, hLfun k]
      by_cases hki : k = index
      · subst hki
        rw [if_pos rfl, if_pos (List.mem_cons_self _ _)]
      · rw [if_neg hki, if_neg (by
          intro hmem
          cases List.mem_cons.mp hmem with
          | inl h => exact hki h
          | inr h => exact hkr h)]

/-- The initial (collected, unmerged) link of a pass in an alternating
write/read ring: write state `w` at even ring positions, read state `r` at
odd ones, all on queue `q`. -/
def alt_link {T S W : Type} (q : QueueId) (w r : T) (st : Nat → PipelineStage)
    (i : Nat) : ChainLink T S W where
  queue := q
  stages := st i
  state := (if i % 2 = 0 then w else r)
  merged_state := (if i % 2 = 0 then w else r)
  merged_stages := st i
  acquire := LinkSync.none
  release := LinkSync.none

/-- Claim C2: in a ring of `2 * n` passes on one queue alternating a write
access (even positions) and a read access (odd positions) whose states never
merge, every built link keeps its own state and stages as the merged ones,
gets a barrier-only release running from its (discard-adjusted when the next
access is the write) merged state to the next link's merged state with the
merged stage range, and every acquire stays the no-op variant. -/
theorem build_alternating_write_read_barrier_only {T A U I S W : Type}
    [DecidableEq T] [DecidableEq U] (ops : StateOps T A) (orU : U → U → U)
    (id : Nat) (usage : U) (init : I) (passes : List (PassLinks T U))
    (alloc : Nat → S × W) (q : QueueId) (w r : T) (st : Nat → PipelineStage)
    (n : Nat) (hn : 1 ≤ n) (hlen : passes.length = 2 * n)
    (hdecl : ∀ i (hi : i < passes.length), passes[i].queue = q ∧
      ∃ lk, passes[i].links.find? (fun l => l.id == id) = some lk ∧
        lk.state = (if i % 2 = 0 then w else r) ∧ lk.stages = st i)
    (hwr : ops.merge w r = Option.none) (hrw : ops.merge r w = Option.none)
    (hr : ops.is_read (ops.accessOf r) = true)
    (hw : ops.is_read (ops.accessOf w) = false) :
    ∃ ch : Chain T U I S W,
      Chain.build ops orU id usage init passes alloc = some ch ∧
      ch.links.length = 2 * n ∧
      ∀ i, i < 2 * n → getl ch.links i = some
        { (alt_link q w r st i : ChainLink T S W) with release := (LinkSync.barrier
            ((if i % 2 = 0 then w else ops.discard_content r),
              (if i % 2 = 0 then r else w))
            (st i, st ((i + 1) % (2 * n)))) } := by
  have hclen : (collect (S := S) (W := W) id passes).length = 2 * n := by
    rw [length_collect, hlen]
  have hcoll : ∀ k, k < 2 * n →
      getl (collect (S := S) (W := W) id passes) k
        = some (alt_link q w r st k) := by
    intro k hk
    have hk' : k < passes.length := by rw [hlen]; exact hk
    rw [getl_collect, List.getElem?_eq_getElem hk']
    dsimp only
    obtain ⟨hq', lk, hfind, hstate, hstages⟩ := hdecl k hk'
    rw [hfind]
    dsimp only [Option.map_some']
    rw [hq', hstate, hstages]
    rfl
  have hm2 : 2 ≤ 2 * n := by omega
  have hmadj : ∀ k, k < 2 * n →
      ops.merge ((alt_link (S := S) (W := W) q w r st k).state)
        ((alt_link (S := S) (W := W) q w r st ((k + 1) % (2 * n))).state)
        = Option.none := by
    intro k hk
    have hpar : ((k + 1) % (2 * n)) % 2 = (k + 1) % 2 :=
      Nat.mod_mod_of_dvd _ ⟨n, rfl⟩
    simp only [alt_link]
    by_cases hpk : k % 2 = 0
    · have h2 : (k + 1) % 2 = 1 := by omega
      rw [if_pos hpk, hpar, h2]
      rw [if_neg (by omega)]
      exact hwr
    · have h2 : (k + 1) % 2 = 0 := by omega
      rw [if_neg hpk, hpar, h2]
      rw [if_pos rfl]
      exact hrw
  have hqq : ∀ k, k < 2 * n →
      (alt_link (S := S) (W := W) q w r st k).queue = q := by
    intro k _
    rfl
  have hmpid : merge_pass ops
      ((List.range (2 * n * 2)).map (fun i => i % (2 * n)))
      (collect (S := S) (W := W) id passes)
        = collect (S := S) (W := W) id passes :=
    merge_pass_id_of_unmergeable ops (2 * n) hm2 (alt_link q w r st)
      (fun k hk => Or.inl (hmadj k hk))
      _ (by
        intro x hx
        obtain ⟨a, _, ha⟩ := List.mem_map.mp hx
        rw [← ha]
        exact Nat.mod_lt _ (by omega))
      _ hclen hcoll
  have hdescres := sync_pass_barrier_desc ops alloc q (2 * n) hm2
    (List.range (2 * n)) (by intro x hx; exact List.mem_range.mp hx)
    (alt_link q w r st) hqq hmadj 0
    (collect (S := S) (W := W) id passes) hclen hcoll
  have hbl : ∀ i, i < 2 * n →
      barrier_link ops (alt_link (S := S) (W := W) q w r st) (2 * n) i
        = { (alt_link q w r st i : ChainLink T S W) with release := (LinkSync.barrier
            ((if i % 2 = 0 then w else ops.discard_content r),
              (if i % 2 = 0 then r else w))
            (st i, st ((i + 1) % (2 * n)))) } := by
    intro i hi
    have hpar : ((i + 1) % (2 * n)) % 2 = (i + 1) % 2 :=
      Nat.mod_mod_of_dvd _ ⟨n, rfl⟩
    simp only [barrier_link, alt_link]
    by_cases hpi : i % 2 = 0
    · have h2 : (i + 1) % 2 = 1 := by omega
      simp [hpar, h2, hpi, hr]
    · have h1 : i % 2 = 1 := by omega
      have h2 : (i + 1) % 2 = 0 := by omega
      simp [hpar, h1, h2, hw]
  unfold Chain.build
  dsimp only
  rw [hclen, hmpid]
  rw [if_neg (by
    intro hall
    rw [all_isNone_iff] at hall
    have h0 := hall 0
    rw [hdescres 0 (by omega)] at h0
    exact absurd h0 (by simp))]
  refine ⟨_, rfl, ?_, ?_⟩
  · rw [(sync_pass_sameExist ops alloc (List.range (2 * n)) 0
      (collect (S := S) (W := W) id passes)).1, hclen]
  · intro i hi
    rw [hdescres i hi, if_pos (List.mem_range.mpr hi), hbl i hi]



/-- Step-3 on a two-slot all-present ring whose two queues belong to
different families: both transitions become ownership-transfer pairs, each
sharing the signal/wait handles of one allocator call. -/
theorem sync_pass_two_ring_transfer {T A S W : Type} [DecidableEq T]
    (ops : StateOps T A) (alloc : Nat → S × W) (c : Nat)
    (links : List (Option (ChainLink T S W))) (l0 l1 : ChainLink T S W)
    (hlen : links.length = 2)
    (h0 : getl links 0 = some l0) (h1 : getl links 1 = some l1)
    (hfam : l0.queue.family ≠ l1.queue.family) :
    getl (sync_pass ops alloc [0, 1] c links) 0 = some
      { l0 with
        release := (LinkSync.transfer (alloc c).1
          (ops.with_no_access (if ops.is_read (ops.accessOf l1.state)
            then l0.merged_state else ops.discard_content l0.merged_state),
            ops.with_no_access l1.merged_state)
          (l0.merged_stages, l1.merged_stages) l1.queue),
        acquire := (LinkSync.transfer (alloc (c + 1)).2
          (ops.with_no_access (if ops.is_read (ops.accessOf l0.state)
            then l1.merged_state else ops.discard_content l1.merged_state),
            ops.with_no_access l0.merged_state)
          (l1.merged_stages, l0.merged_stages) l1.queue) } ∧
    getl (sync_pass ops alloc [0, 1] c links) 1 = some
      { l1 with
        acquire := (LinkSync.transfer (alloc c).2
          (ops.with_no_access (if ops.is_read (ops.accessOf l1.state)
            then l0.merged_state else ops.discard_content l0.merged_state),
            ops.with_no_access l1.merged_state)
          (l0.merged_stages, l1.merged_stages) l0.queue),
        release := (LinkSync.transfer (alloc (c + 1)).1
          (ops.with_no_access (if ops.is_read (ops.accessOf l0.state)
            then l1.merged_state else ops.discard_content l1.merged_state),
            ops.with_no_access l0.merged_state)
          (l1.merged_stages, l0.merged_stages) l0.queue) } ∧
    (sync_pass ops alloc [0, 1] c links).length = 2 := by
  have hq01 : l0.queue ≠ l1.queue := by
    intro h
    exact hfam (congrArg QueueId.family h)
  have hall : ∀ k, k < 2 → (getl links k).isSome = true := by
    intro k hk
    match k, hk with
    | 0, _ => rw [h0]; rfl
    | 1, _ => rw [h1]; rfl
  have hfn0 : find_next links 0 = some 1 := by
    have := find_next_all_existing hlen (by omega) hall 0
    simpa using this
  rw [sync_pass, h0]
  dsimp only
  rw [hfn0]
  dsimp only
  rw [h1]
  dsimp only
  rw [if_neg (fun hc => hq01 hc.2), if_neg hq01, if_neg hfam]
  set X := { l0 with
    release := (LinkSync.transfer (alloc c).1
      (ops.with_no_access (if ops.is_read (ops.accessOf l1.state)
        then l0.merged_state else ops.discard_content l0.merged_state),
        ops.with_no_access l1.merged_state)
      (l0.merged_stages, l1.merged_stages) l1.queue) } with hX
  set Y := { l1 with
    acquire := (LinkSync.transfer (alloc c).2
      (ops.with_no_access (if ops.is_read (ops.accessOf l1.state)
        then l0.merged_state else ops.discard_content l0.merged_state),
        ops.with_no_access l1.merged_state)
      (l0.merged_stages, l1.merged_stages) l0.queue) } with hY
  have hlen1 : (setl (setl links 0 X) 1 Y).length = 2 := by
    rw [length_setl, length_setl]
    exact hlen
  have hg1 : getl (setl (setl links 0 X) 1 Y) 1 = some Y :=
    getl_setl_self (by rw [length_setl, hlen]; omega) Y
  have hg0 : getl (setl (setl links 0 X) 1 Y) 0 = some X := by
    rw [getl_setl_ne (by omega), getl_setl_self (by rw [hlen]; omega)]
  have hall1 : ∀ k, k < 2 → (getl (setl (setl links 0 X) 1 Y) k).isSome = true := by
    intro k hk
    match k, hk with
    | 0, _ => rw [hg0]; rfl
    | 1, _ => rw [hg1]; rfl
  have hfn1 : find_next (setl (setl links 0 X) 1 Y) 1 = some 0 := by
    have := find_next_all_existing hlen1 (by omega) hall1 1
    simpa using this
  rw [sync_pass, hg1]
  dsimp only
  rw [hfn1]
  dsimp only
  rw [hg0]
  dsimp only
  rw [if_neg (fun hc => hq01 hc.2.symm), if_neg (fun hc => hq01 hc.symm),
    if_neg (fun hc => hfam hc.symm)]
  rw [sync_pass]
  refine ⟨?_, ?_, ?_⟩
  · rw [getl_setl_self (by rw [length_setl, hlen1]; omega)]
  · rw [getl_setl_ne (by omega), getl_setl_self (by rw [hlen1]; omega)]
  · rw [length_setl, length_setl, hlen1]




theorem find?_first {α : Type} (p : α → Bool) :
    ∀ (l : List α) (a : α), l.find? p = some a →
      ∃ n, n < l.length ∧ l[n]? = some a ∧ p a = true ∧
        ∀ e, e < n → ∃ b, l[e]? = some b ∧ p b = false := by
  intro l
  induction l with
  | nil => intro a h; simp at h
  | cons x t ih =>
    intro a h
    rw [List.find?_cons] at h
    cases hx : p x with
    | true =>
      simp only [hx] at h
      have hax : x = a := Option.some.inj h
      subst hax
      refine ⟨0, by simp, by simp, hx, ?_⟩
      intro e he
      omega
    | false =>
      simp only [hx] at h
      obtain ⟨n, hn, hna, hpa, hpre⟩ := ih a h
      refine ⟨n + 1, by simpa using hn, by simpa using hna, hpa, ?_⟩
      intro e he
      cases e with
      | zero => exact ⟨x, by simp, hx⟩
      | succ e' =>
        obtain ⟨b, hb, hpb⟩ := hpre e' (by omega)
        exact ⟨b, by simpa using hb, hpb⟩

theorem mod_small_cases {a m : Nat} (h : a < 2 * m) :
    a % m = if a < m then a else a - m := by
  by_cases hl : a < m
  · rw [if_pos hl, Nat.mod_eq_of_lt hl]
  · rw [if_neg hl, Nat.mod_eq_sub_mod (by omega), Nat.mod_eq_of_lt (by omega)]

theorem dist_eq {m x y : Nat} (hx : x < m) (hy : y < m) :
    (x + m - y - 1) % m = if y < x then x - y - 1 else x + m - y - 1 := by
  by_cases hl : y < x
  · rw [if_pos hl]
    have ha : x + m - y - 1 = (x - y - 1) + m := by omega
    rw [ha, Nat.add_mod_right, Nat.mod_eq_of_lt (by omega)]
  · rw [if_neg hl, Nat.mod_eq_of_lt (by omega)]

/-- The nearest-next-existing search: existence, bounds and minimality in
terms of forward cyclic distance. -/
theorem find_next_spec {T S W : Type} {links : List (Option (ChainLink T S W))}
    {i j : Nat} (hi : i < links.length) (h : find_next links i = some j) :
    (getl links j).isSome = true ∧ j < links.length ∧ j ≠ i ∧
    ∀ x, x < links.length → x ≠ i → (getl links x).isSome = true →
      (j + links.length - i - 1) % links.length
        ≤ (x + links.length - i - 1) % links.length := by
  unfold find_next nextIndices at h
  obtain ⟨n, hn, hna, hpa, hpre⟩ := find?_first _ _ _ h
  rw [List.length_map, List.length_range] at hn
  rw [List.getElem?_map, List.getElem?_range (by omega)] at hna
  have hj : j = (i + 1 + n) % links.length := (Option.some.inj (by simpa using hna)).symm
  have hm2 : 2 ≤ links.length := by omega
  have hjlt : j < links.length := by
    rw [hj]
    exact Nat.mod_lt _ (by omega)
  have hmod : (i + 1 + n) % links.length
      = if i + 1 + n < links.length then i + 1 + n else i + 1 + n - links.length :=
    mod_small_cases (by omega)
  have hji : j ≠ i := by
    rw [hj, hmod]
    split <;> omega
  have hdistj : (j + links.length - i - 1) % links.length = n := by
    rw [hj, hmod]
    split
    · rw [dist_eq (by omega) hi, if_pos (by omega)]
      omega
    · rw [dist_eq (by omega) hi, if_neg (by omega)]
      omega
  refine ⟨hpa, hjlt, hji, ?_⟩
  intro x hx hxi hxs
  rw [hdistj]
  set kx := (x + links.length - i - 1) % links.length with hkx
  have hkxeq : kx = if i < x then x - i - 1 else x + links.length - i - 1 := by
    rw [hkx, dist_eq hx hi]
  have hkxlt : kx < links.length - 1 := by
    rw [hkxeq]
    split <;> omega
  have hfkx : (i + 1 + kx) % links.length = x := by
    by_cases hix : i < x
    · rw [hkxeq, if_pos hix, show i + 1 + (x - i - 1) = x by omega]
      exact Nat.mod_eq_of_lt hx
    · rw [hkxeq, if_neg hix,
        show i + 1 + (x + links.length - i - 1) = x + links.length by omega,
        Nat.add_mod_right]
      exact Nat.mod_eq_of_lt hx
  by_contra hlt
  obtain ⟨b, hb, hpb⟩ := hpre kx (by omega)
  rw [List.getElem?_map, List.getElem?_range (by omega)] at hb
  have hbx : b = (i + 1 + kx) % links.length :=
    (Option.some.inj (by simpa using hb)).symm
  rw [hbx, hfkx] at hpb
  rw [hxs] at hpb
  exact absurd hpb (by simp)

theorem cyc_contra {m i1 i2 j : Nat} (h1 : i1 < m) (h2 : i2 < m)
    (hj : j < m) (hne : i1 ≠ i2) (hji1 : j ≠ i1) (hji2 : j ≠ i2)
    (d1 : (j + m - i1 - 1) % m ≤ (i2 + m - i1 - 1) % m)
    (d2 : (j + m - i2 - 1) % m ≤ (i1 + m - i2 - 1) % m) : False := by
  rw [dist_eq hj h1, dist_eq h2 h1] at d1
  rw [dist_eq hj h2, dist_eq h1 h2] at d2
  split_ifs at d1 d2 <;> omega

/-- Two existing ring slots with the same nearest next existing slot
coincide: the successor map of step 3 is injective. -/
theorem find_next_inj {T S W : Type} {links : List (Option (ChainLink T S W))}
    {i1 i2 j : Nat}
    (hs1 : (getl links i1).isSome = true) (hs2 : (getl links i2).isSome = true)
    (h1 : find_next links i1 = some j) (h2 : find_next links i2 = some j) :
    i1 = i2 := by
  by_contra hne
  have hl1 : i1 < links.length := getl_isSome_lt hs1
  have hl2 : i2 < links.length := getl_isSome_lt hs2
  obtain ⟨_, hjlt, hji1, hmin1⟩ := find_next_spec hl1 h1
  obtain ⟨_, _, hji2, hmin2⟩ := find_next_spec hl2 h2
  exact cyc_contra hl1 hl2 hjlt hne hji1 hji2
    (hmin1 i2 hl2 (fun hh => hne hh.symm) hs2)
    (hmin2 i1 hl1 hne hs1)

theorem find?_congr {α : Type} (p q : α → Bool) :
    ∀ l : List α, (∀ x ∈ l, p x = q x) → l.find? p = l.find? q := by
  intro l
  induction l with
  | nil => intro _; rfl
  | cons a t ih =>
    intro h
    rw [List.find?_cons, List.find?_cons, h a (by simp)]
    cases q a with
    | true => rfl
    | false => exact ih (fun x hx => h x (by simp [hx]))

/-- `find_next` only depends on the length and the existence pattern. -/
theorem find_next_shape {T S W : Type}
    {links links' : List (Option (ChainLink T S W))}
    (hlen : links'.length = links.length)
    (hsame : ∀ j, (getl links' j).isSome = (getl links j).isSome) (x : Nat) :
    find_next links' x = find_next links x := by
  unfold find_next
  rw [hlen]
  exact find?_congr _ _ _ (fun j _ => hsame j)

/-- `find_next` is unchanged by overwriting an existing slot. -/
theorem find_next_setl {T S W : Type}
    {links : List (Option (ChainLink T S W))} {a : Nat}
    (ha : (getl links a).isSome = true) (cl : ChainLink T S W) (x : Nat) :
    find_next (setl links a cl) x = find_next links x :=
  find_next_shape (length_setl ..) (isSome_getl_setl ha cl) x

/-- Step 2 only updates `merged_state`/`merged_stages`: queue, state,
stages and both synchronization decisions survive it unchanged. -/
theorem merge_pass_preserves_fields {T A S W : Type} (ops : StateOps T A)
    (ids : List Nat) :
    ∀ (links : List (Option (ChainLink T S W))) (i : Nat)
      (cl' : ChainLink T S W), getl (merge_pass ops ids links) i = some cl' →
      ∃ cl, getl links i = some cl ∧ cl'.queue = cl.queue ∧
        cl'.state = cl.state ∧ cl'.stages = cl.stages ∧
        cl'.acquire = cl.acquire ∧ cl'.release = cl.release := by
  induction ids with
  | nil =>
    intro links i cl' h
    exact ⟨cl', h, rfl, rfl, rfl, rfl, rfl⟩
  | cons index rest ih =>
    intro links i cl' h
    rw [merge_pass] at h
    cases hcur : getl links index with
    | none =>
      rw [hcur] at h
      exact ih links i cl' h
    | some link =>
      rw [hcur] at h
      dsimp only at h
      cases hfn : find_next links index with
      | none =>
        rw [hfn] at h
        exact ⟨cl', h, rfl, rfl, rfl, rfl, rfl⟩
      | some j =>
        rw [hfn] at h
        dsimp only at h
        cases hnext : getl links j with
        | none =>
          rw [hnext] at h
          exact ⟨cl', h, rfl, rfl, rfl, rfl, rfl⟩
        | some next =>
          rw [hnext] at h
          dsimp only at h
          cases hm : ops.merge link.state next.state with
          | none =>
            rw [hm] at h
            exact ih links i cl' h
          | some state =>
            rw [hm] at h
            dsimp only at h
            by_cases hq : link.queue = next.queue
            · rw [if_pos hq] at h
              obtain ⟨cl2, hcl2, f1, f2, f3, f4, f5⟩ := ih _ i cl' h
              have hjlt : j < links.length := getl_isSome_lt (by simp [hnext])
              have hilt : index < links.length := getl_isSome_lt (by simp [hcur])
              by_cases hij : i = j
              · subst hij
                rw [getl_setl_self (by rw [length_setl]; exact hjlt) _] at hcl2
                have hc := Option.some.inj hcl2
                refine ⟨next, hnext, ?_, ?_, ?_, ?_, ?_⟩ <;>
                  (rw [← hc] at f1 f2 f3 f4 f5 <;> first
                    | exact f1 | exact f2 | exact f3 | exact f4 | exact f5)
              · rw [getl_setl_ne hij] at hcl2
                by_cases hii : i = index
                · subst hii
                  rw [getl_setl_self hilt _] at hcl2
                  have hc := Option.some.inj hcl2
                  refine ⟨link, hcur, ?_, ?_, ?_, ?_, ?_⟩ <;>
                    (rw [← hc] at f1 f2 f3 f4 f5 <;> first
                      | exact f1 | exact f2 | exact f3 | exact f4 | exact f5)
                · rw [getl_setl_ne hii] at hcl2
                  exact ⟨cl2, hcl2, f1, f2, f3, f4, f5⟩
            · rw [if_neg hq] at h
              exact ih links i cl' h

/-- Every ownership-transfer decision in the ring is half of a matched
release/acquire pair: the release at a link and the acquire at its nearest
next existing link share the signal/wait handles of one allocator call,
carry the same state and stage ranges, and name each other's queues. -/
def transfer_matched {T S W : Type} (alloc : Nat → S × W)
    (links : List (Option (ChainLink T S W))) : Prop :=
  (∀ i cl sem st sg o, getl links i = some cl →
    cl.release = LinkSync.transfer sem st sg o →
    ∃ j cl' k, find_next links i = some j ∧ getl links j = some cl' ∧
      o = cl'.queue ∧ sem = (alloc k).1 ∧
      cl'.acquire = LinkSync.transfer (alloc k).2 st sg cl.queue) ∧
  (∀ j cl' sem st sg o, getl links j = some cl' →
    cl'.acquire = LinkSync.transfer sem st sg o →
    ∃ i cl k, find_next links i = some j ∧ getl links i = some cl ∧
      o = cl.queue ∧ sem = (alloc k).2 ∧
      cl.release = LinkSync.transfer (alloc k).1 st sg cl'.queue)

/-- Writing a non-transfer release into an existing slot whose release was
still no-op preserves the matched-transfer property. -/
theorem transfer_matched_rel_single {T S W : Type} {alloc : Nat → S × W}
    {links : List (Option (ChainLink T S W))} {index : Nat}
    {link : ChainLink T S W} (hcur : getl links index = some link)
    (hrelnone : link.release = LinkSync.none)
    (relVal : LinkSync T S)
    (hnt : ∀ sem st sg o, relVal ≠ LinkSync.transfer sem st sg o)
    (htm : transfer_matched alloc links) :
    transfer_matched alloc (setl links index { link with release := relVal }) := by
  have hil : index < links.length := getl_isSome_lt (by simp [hcur])
  have hstab : ∀ x, find_next (setl links index { link with release := relVal }) x
      = find_next links x :=
    find_next_setl (by simp [hcur]) _
  constructor
  · intro i cl sem st sg o hcl hrel
    by_cases hii : i = index
    · subst hii
      rw [getl_setl_self hil _] at hcl
      have hc := (Option.some.inj hcl).symm
      rw [hc] at hrel
      exact absurd hrel (hnt sem st sg o)
    · rw [getl_setl_ne hii] at hcl
      obtain ⟨j, cl', k, hfn, hj, ho, hsem, hacq⟩ := htm.1 i cl sem st sg o hcl hrel
      rw [← hstab i] at hfn
      by_cases hji : j = index
      · subst hji
        have hc : cl' = link := Option.some.inj (hj.symm.trans hcur)
        refine ⟨j, { link with release := relVal }, k, hfn,
          getl_setl_self hil _, ?_, hsem, ?_⟩
        · rw [ho, hc]
        · show link.acquire = _
          rw [hc] at hacq
          exact hacq
      · exact ⟨j, cl', k, hfn, by rw [getl_setl_ne hji]; exact hj, ho, hsem, hacq⟩
  · intro j cl' sem st sg o hcl' hacq
    by_cases hji : j = index
    · subst hji
      rw [getl_setl_self hil _] at hcl'
      have hc := (Option.some.inj hcl').symm
      obtain ⟨i, cl, k, hfn, hi, ho, hsem, hrel⟩ :=
        htm.2 j link sem st sg o hcur (by
          rw [hc] at hacq
          exact hacq)
      by_cases hii : i = j
      · exfalso
        subst hii
        have hc2 := Option.some.inj (hcur.symm.trans hi)
        rw [← hc2, hrelnone] at hrel
        exact absurd hrel (by simp)
      · refine ⟨i, cl, k, by rw [hstab i]; exact hfn,
          by rw [getl_setl_ne hii]; exact hi, ho, hsem, ?_⟩
        rw [hc]
        show cl.release = LinkSync.transfer (alloc k).1 st sg link.queue
        exact hrel
    · rw [getl_setl_ne hji] at hcl'
      obtain ⟨i, cl, k, hfn, hi, ho, hsem, hrel⟩ :=
        htm.2 j cl' sem st sg o hcl' hacq
      by_cases hii : i = index
      · exfalso
        subst hii
        have hc2 := Option.some.inj (hcur.symm.trans hi)
        rw [← hc2, hrelnone] at hrel
        exact absurd hrel (by simp)
      · exact ⟨i, cl, k, by rw [hstab i]; exact hfn,
          by rw [getl_setl_ne hii]; exact hi, ho, hsem, hrel⟩

/-- Writing a non-transfer release at a slot and a non-transfer acquire at
its successor (both previously no-op) preserves the matched-transfer
property. -/
theorem transfer_matched_nontransfer_double {T S W : Type} {alloc : Nat → S × W}
    {links : List (Option (ChainLink T S W))} {index j0 : Nat}
    {link next : ChainLink T S W}
    (hcur : getl links index = some link) (hnext : getl links j0 = some next)
    (hfn : find_next links index = some j0)
    (hrelnone : link.release = LinkSync.none)
    (hacqnone : next.acquire = LinkSync.none)
    (relVal : LinkSync T S) (acqVal : LinkSync T W)
    (hntr : ∀ sem st sg o, relVal ≠ LinkSync.transfer sem st sg o)
    (hnta : ∀ sem st sg o, acqVal ≠ LinkSync.transfer sem st sg o)
    (htm : transfer_matched alloc links) :
    transfer_matched alloc (setl (setl links index { link with release := relVal })
      j0 { next with acquire := acqVal }) := by
  have hil : index < links.length := getl_isSome_lt (by simp [hcur])
  have hj0l : j0 < links.length := getl_isSome_lt (by simp [hnext])
  have hj0i : j0 ≠ index := (find_next_spec hil hfn).2.2.1
  have hstab : ∀ x, find_next (setl (setl links index
      { link with release := relVal }) j0 { next with acquire := acqVal }) x
      = find_next links x := by
    intro x
    rw [find_next_setl (by
      rw [isSome_getl_setl (by simp [hcur])]
      simp [hnext]) _ x]
    exact find_next_setl (by simp [hcur]) _ x
  have hgj0 : getl (setl (setl links index { link with release := relVal }) j0
      { next with acquire := acqVal }) j0 = some { next with acquire := acqVal } :=
    getl_setl_self (by rw [length_setl]; exact hj0l) _
  have hgidx : getl (setl (setl links index { link with release := relVal }) j0
      { next with acquire := acqVal }) index = some { link with release := relVal } := by
    rw [getl_setl_ne (fun hh => hj0i hh.symm)]
    exact getl_setl_self hil _
  have hgoth : ∀ y, y ≠ index → y ≠ j0 →
      getl (setl (setl links index { link with release := relVal }) j0
        { next with acquire := acqVal }) y = getl links y := by
    intro y hyi hyj
    rw [getl_setl_ne hyj, getl_setl_ne hyi]
  constructor
  · intro i cl sem st sg o hcl hrel
    by_cases hii : i = index
    · subst hii
      have hc := Option.some.inj (hgidx.symm.trans hcl)
      rw [← hc] at hrel
      exact absurd hrel (hntr sem st sg o)
    · by_cases hij0 : i = j0
      · subst hij0
        have hc := Option.some.inj (hgj0.symm.trans hcl)
        rw [← hc] at hrel
        obtain ⟨j1, cl1', k, hfn1, hj1, ho, hsem, hacq1⟩ :=
          htm.1 i next sem st sg o hnext hrel
        have hj1i : j1 ≠ i := (find_next_spec hj0l hfn1).2.2.1
        by_cases hj1x : j1 = index
        · subst hj1x
          have hc1 : cl1' = link := Option.some.inj (hj1.symm.trans hcur)
          refine ⟨j1, { link with release := relVal }, k,
            by rw [hstab]; exact hfn1, hgidx, ?_, hsem, ?_⟩
          · rw [ho, hc1]
          · show link.acquire = _
            rw [hc1] at hacq1
            rw [← hc]
            exact hacq1
        · refine ⟨j1, cl1', k, by rw [hstab]; exact hfn1,
            by rw [hgoth j1 hj1x hj1i]; exact hj1, ho, hsem, ?_⟩
          rw [← hc]
          exact hacq1
      · rw [hgoth i hii hij0] at hcl
        obtain ⟨j1, cl1', k, hfn1, hj1, ho, hsem, hacq1⟩ :=
          htm.1 i cl sem st sg o hcl hrel
        by_cases hj1j0 : j1 = j0
        · exfalso
          subst hj1j0
          have hc1 : cl1' = next := Option.some.inj (hj1.symm.trans hnext)
          rw [hc1, hacqnone] at hacq1
          exact absurd hacq1.symm (by simp)
        · by_cases hj1x : j1 = index
          · subst hj1x
            have hc1 : cl1' = link := Option.some.inj (hj1.symm.trans hcur)
            refine ⟨j1, { link with release := relVal }, k,
              by rw [hstab]; exact hfn1, hgidx, ?_, hsem, ?_⟩
            · rw [ho, hc1]
            · show link.acquire = _
              rw [hc1] at hacq1
              exact hacq1
          · exact ⟨j1, cl1', k, by rw [hstab]; exact hfn1,
              by rw [hgoth j1 hj1x hj1j0]; exact hj1, ho, hsem, hacq1⟩
  · intro j cl' sem st sg o hcl' hacq
    by_cases hjj0 : j = j0
    · subst hjj0
      have hc := Option.some.inj (hgj0.symm.trans hcl')
      rw [← hc] at hacq
      exact absurd hacq (hnta sem st sg o)
    · by_cases hjx : j = index
      · subst hjx
        have hc := Option.some.inj (hgidx.symm.trans hcl')
        rw [← hc] at hacq
        obtain ⟨i0, cl0, k, hfn0, hi0, ho, hsem, hrel0⟩ :=
          htm.2 j link sem st sg o hcur hacq
        by_cases hi0x : i0 = j
        · exfalso
          subst hi0x
          have hc0 : cl0 = link := Option.some.inj (hi0.symm.trans hcur)
          rw [hc0, hrelnone] at hrel0
          exact absurd hrel0 (by simp)
        · by_cases hi0j0 : i0 = j0
          · subst hi0j0
            have hc0 : cl0 = next := Option.some.inj (hi0.symm.trans hnext)
            refine ⟨i0, { next with acquire := acqVal }, k,
              by rw [hstab]; exact hfn0, hgj0, ?_, hsem, ?_⟩
            · rw [ho, hc0]
            · show next.release = _
              rw [hc0] at hrel0
              rw [← hc]
              exact hrel0
          · refine ⟨i0, cl0, k, by rw [hstab]; exact hfn0,
              by rw [hgoth i0 hi0x hi0j0]; exact hi0, ho, hsem, ?_⟩
            rw [← hc]
            exact hrel0
      · rw [hgoth j hjx hjj0] at hcl'
        obtain ⟨i0, cl0, k, hfn0, hi0, ho, hsem, hrel0⟩ :=
          htm.2 j cl' sem st sg o hcl' hacq
        by_cases hi0x : i0 = index
        · exfalso
          subst hi0x
          have hc0 : cl0 = link := Option.some.inj (hi0.symm.trans hcur)
          rw [hc0, hrelnone] at hrel0
          exact absurd hrel0 (by simp)
        · by_cases hi0j0 : i0 = j0
          · subst hi0j0
            have hc0 : cl0 = next := Option.some.inj (hi0.symm.trans hnext)
            refine ⟨i0, { next with acquire := acqVal }, k,
              by rw [hstab]; exact hfn0, hgj0, ?_, hsem, ?_⟩
            · rw [ho, hc0]
            · show next.release = _
              rw [hc0] at hrel0
              exact hrel0
          · exact ⟨i0, cl0, k, by rw [hstab]; exact hfn0,
              by rw [hgoth i0 hi0x hi0j0]; exact hi0, ho, hsem, hrel0⟩

/-- Writing a matched ownership-transfer pair (release at a slot, acquire at
its successor, sharing one allocator call, naming each other's queues)
into two previously no-op decisions preserves the matched-transfer
property. -/
theorem transfer_matched_transfer_double {T S W : Type} {alloc : Nat → S × W}
    {links : List (Option (ChainLink T S W))} {index j0 : Nat}
    {link next : ChainLink T S W}
    (hcur : getl links index = some link) (hnext : getl links j0 = some next)
    (hfn : find_next links index = some j0)
    (hrelnone : link.release = LinkSync.none)
    (hacqnone : next.acquire = LinkSync.none)
    (c : Nat) (stv : T × T) (sgv : PipelineStage × PipelineStage)
    (htm : transfer_matched alloc links) :
    transfer_matched alloc (setl (setl links index
      { link with release := (LinkSync.transfer (alloc c).1 stv sgv next.queue) })
      j0 { next with acquire := (LinkSync.transfer (alloc c).2 stv sgv link.queue) }) := by
  have hil : index < links.length := getl_isSome_lt (by simp [hcur])
  have hj0l : j0 < links.length := getl_isSome_lt (by simp [hnext])
  have hj0i : j0 ≠ index := (find_next_spec hil hfn).2.2.1
  have hstab : ∀ x, find_next (setl (setl links index
      { link with release := (LinkSync.transfer (alloc c).1 stv sgv next.queue) })
      j0 { next with acquire := (LinkSync.transfer (alloc c).2 stv sgv link.queue) }) x
      = find_next links x := by
    intro x
    rw [find_next_setl (by
      rw [isSome_getl_setl (by simp [hcur])]
      simp [hnext]) _ x]
    exact find_next_setl (by simp [hcur]) _ x
  have hgj0 : getl (setl (setl links index
      { link with release := (LinkSync.transfer (alloc c).1 stv sgv next.queue) })
      j0 { next with acquire := (LinkSync.transfer (alloc c).2 stv sgv link.queue) }) j0
      = some { next with acquire := (LinkSync.transfer (alloc c).2 stv sgv link.queue) } :=
    getl_setl_self (by rw [length_setl]; exact hj0l) _
  have hgidx : getl (setl (setl links index
      { link with release := (LinkSync.transfer (alloc c).1 stv sgv next.queue) })
      j0 { next with acquire := (LinkSync.transfer (alloc c).2 stv sgv link.queue) }) index
      = some { link with release := (LinkSync.transfer (alloc c).1 stv sgv next.queue) } := by
    rw [getl_setl_ne (fun hh => hj0i hh.symm)]
    exact getl_setl_self hil _
  have hgoth : ∀ y, y ≠ index → y ≠ j0 →
      getl (setl (setl links index
        { link with release := (LinkSync.transfer (alloc c).1 stv sgv next.queue) })
        j0 { next with acquire := (LinkSync.transfer (alloc c).2 stv sgv link.queue) }) y
      = getl links y := by
    intro y hyi hyj
    rw [getl_setl_ne hyj, getl_setl_ne hyi]
  constructor
  · intro i cl sem st sg o hcl hrel
    by_cases hii : i = index
    · subst hii
      have hc := Option.some.inj (hgidx.symm.trans hcl)
      rw [← hc] at hrel
      have hinj := LinkSync.transfer.inj hrel
      obtain ⟨hsem, hst, hsg, ho⟩ := hinj
      refine ⟨j0, { next with acquire := (LinkSync.transfer (alloc c).2 stv sgv link.queue) },
        c, by rw [hstab]; exact hfn, hgj0, ?_, hsem.symm, ?_⟩
      · rw [← ho]
      · rw [← hc, ← hst, ← hsg]
    · by_cases hij0 : i = j0
      · subst hij0
        have hc := Option.some.inj (hgj0.symm.trans hcl)
        rw [← hc] at hrel
        obtain ⟨j1, cl1', k, hfn1, hj1, ho, hsem, hacq1⟩ :=
          htm.1 i next sem st sg o hnext hrel
        have hj1i : j1 ≠ i := (find_next_spec hj0l hfn1).2.2.1
        by_cases hj1x : j1 = index
        · subst hj1x
          have hc1 : cl1' = link := Option.some.inj (hj1.symm.trans hcur)
          refine ⟨j1, { link with release := (LinkSync.transfer (alloc c).1 stv sgv next.queue) },
            k, by rw [hstab]; exact hfn1, hgidx, ?_, hsem, ?_⟩
          · rw [ho, hc1]
          · show link.acquire = _
            rw [hc1] at hacq1
            rw [← hc]
            exact hacq1
        · refine ⟨j1, cl1', k, by rw [hstab]; exact hfn1,
            by rw [hgoth j1 hj1x hj1i]; exact hj1, ho, hsem, ?_⟩
          rw [← hc]
          exact hacq1
      · rw [hgoth i hii hij0] at hcl
        obtain ⟨j1, cl1', k, hfn1, hj1, ho, hsem, hacq1⟩ :=
          htm.1 i cl sem st sg o hcl hrel
        by_cases hj1j0 : j1 = j0
        · exfalso
          subst hj1j0
          have hc1 : cl1' = next := Option.some.inj (hj1.symm.trans hnext)
          rw [hc1, hacqnone] at hacq1
          exact absurd hacq1.symm (by simp)
        · by_cases hj1x : j1 = index
          · subst hj1x
            have hc1 : cl1' = link := Option.some.inj (hj1.symm.trans hcur)
            refine ⟨j1, { link with release := (LinkSync.transfer (alloc c).1 stv sgv next.queue) },
              k, by rw [hstab]; exact hfn1, hgidx, ?_, hsem, ?_⟩
            · rw [ho, hc1]
            · show link.acquire = _
              rw [hc1] at hacq1
              exact hacq1
          · exact ⟨j1, cl1', k, by rw [hstab]; exact hfn1,
              by rw [hgoth j1 hj1x hj1j0]; exact hj1, ho, hsem, hacq1⟩
  · intro j cl' sem st sg o hcl' hacq
    by_cases hjj0 : j = j0
    · subst hjj0
      have hc := Option.some.inj (hgj0.symm.trans hcl')
      rw [← hc] at hacq
      obtain ⟨hsem, hst, hsg, ho⟩ := LinkSync.transfer.inj hacq
      refine ⟨index, { link with release := (LinkSync.transfer (alloc c).1 stv sgv next.queue) },
        c, by rw [hstab]; exact hfn, hgidx, ?_, hsem.symm, ?_⟩
      · rw [← ho]
      · rw [← hc, ← hst, ← hsg]
    · by_cases hjx : j = index
      · subst hjx
        have hc := Option.some.inj (hgidx.symm.trans hcl')
        rw [← hc] at hacq
        obtain ⟨i0, cl0, k, hfn0, hi0, ho, hsem, hrel0⟩ :=
          htm.2 j link sem st sg o hcur hacq
        by_cases hi0x : i0 = j
        · exfalso
          subst hi0x
          have hc0 : cl0 = link := Option.some.inj (hi0.symm.trans hcur)
          rw [hc0, hrelnone] at hrel0
          exact absurd hrel0 (by simp)
        · by_cases hi0j0 : i0 = j0
          · subst hi0j0
            have hc0 : cl0 = next := Option.some.inj (hi0.symm.trans hnext)
            refine ⟨i0, { next with acquire := (LinkSync.transfer (alloc c).2 stv sgv link.queue) },
              k, by rw [hstab]; exact hfn0, hgj0, ?_, hsem, ?_⟩
            · rw [ho, hc0]
            · show next.release = _
              rw [hc0] at hrel0
              rw [← hc]
              exact hrel0
          · refine ⟨i0, cl0, k, by rw [hstab]; exact hfn0,
              by rw [hgoth i0 hi0x hi0j0]; exact hi0, ho, hsem, ?_⟩
            rw [← hc]
            exact hrel0
      · rw [hgoth j hjx hjj0] at hcl'
        obtain ⟨i0, cl0, k, hfn0, hi0, ho, hsem, hrel0⟩ :=
          htm.2 j cl' sem st sg o hcl' hacq
        by_cases hi0x : i0 = index
        · exfalso
          subst hi0x
          have hc0 : cl0 = link := Option.some.inj (hi0.symm.trans hcur)
          rw [hc0, hrelnone] at hrel0
          exact absurd hrel0 (by simp)
        · by_cases hi0j0 : i0 = j0
          · subst hi0j0
            have hc0 : cl0 = next := Option.some.inj (hi0.symm.trans hnext)
            refine ⟨i0, { next with acquire := (LinkSync.transfer (alloc c).2 stv sgv link.queue) },
              k, by rw [hstab]; exact hfn0, hgj0, ?_, hsem, ?_⟩
            · rw [ho, hc0]
            · show next.release = _
              rw [hc0] at hrel0
              exact hrel0
          · exact ⟨i0, cl0, k, by rw [hstab]; exact hfn0,
              by rw [hgoth i0 hi0x hi0j0]; exact hi0, ho, hsem, hrel0⟩

/-- After the barrier write at `index`, the not-yet-processed indices still
have no-op releases and no-op acquires at their successors. -/
theorem rest_conditions_single {T S W : Type}
    {links : List (Option (ChainLink T S W))} {index : Nat}
    {link : ChainLink T S W} (hcur : getl links index = some link)
    (ids' : List Nat) (hnotin : index ∉ ids')
    (hfresh : ∀ x ∈ index :: ids', ∀ cl, getl links x = some cl →
      cl.release = LinkSync.none)
    (hacq : ∀ x ∈ index :: ids', ∀ cl, getl links x = some cl →
      ∀ j cl', find_next links x = some j → getl links j = some cl' →
        cl'.acquire = LinkSync.none)
    (relVal : LinkSync T S) :
    (∀ x ∈ ids', ∀ cl,
      getl (setl links index { link with release := relVal }) x = some cl →
        cl.release = LinkSync.none) ∧
    (∀ x ∈ ids', ∀ cl,
      getl (setl links index { link with release := relVal }) x = some cl →
      ∀ j cl', find_next (setl links index { link with release := relVal }) x = some j →
        getl (setl links index { link with release := relVal }) j = some cl' →
          cl'.acquire = LinkSync.none) := by
  have hil : index < links.length := getl_isSome_lt (by simp [hcur])
  constructor
  · intro x hx cl hcl
    have hxi : x ≠ index := fun hh => hnotin (hh ▸ hx)
    rw [getl_setl_ne hxi] at hcl
    exact hfresh x (List.mem_cons_of_mem _ hx) cl hcl
  · intro x hx cl hcl j cl' hfnx hj
    have hxi : x ≠ index := fun hh => hnotin (hh ▸ hx)
    rw [getl_setl_ne hxi] at hcl
    rw [find_next_setl (by simp [hcur]) _ x] at hfnx
    by_cases hji : j = index
    · subst hji
      rw [getl_setl_self hil _] at hj
      have hc := (Option.some.inj hj).symm
      rw [hc]
      show link.acquire = LinkSync.none
      exact hacq x (List.mem_cons_of_mem _ hx) cl hcl j link hfnx hcur
    · rw [getl_setl_ne hji] at hj
      exact hacq x (List.mem_cons_of_mem _ hx) cl hcl j cl' hfnx hj

/-- After a semaphore or ownership-transfer write at `index` and its
successor `j0`, the not-yet-processed indices still have no-op releases and
no-op acquires at their successors (the successor map is injective, so no
other slot's successor is `j0`). -/
theorem rest_conditions_double {T S W : Type}
    {links : List (Option (ChainLink T S W))} {index j0 : Nat}
    {link next : ChainLink T S W}
    (hcur : getl links index = some link) (hnext : getl links j0 = some next)
    (hfn : find_next links index = some j0)
    (ids' : List Nat) (hnotin : index ∉ ids')
    (hfresh : ∀ x ∈ index :: ids', ∀ cl, getl links x = some cl →
      cl.release = LinkSync.none)
    (hacq : ∀ x ∈ index :: ids', ∀ cl, getl links x = some cl →
      ∀ j cl', find_next links x = some j → getl links j = some cl' →
        cl'.acquire = LinkSync.none)
    (relVal : LinkSync T S) (acqVal : LinkSync T W) :
    (∀ x ∈ ids', ∀ cl,
      getl (setl (setl links index { link with release := relVal }) j0
        { next with acquire := acqVal }) x = some cl →
        cl.release = LinkSync.none) ∧
    (∀ x ∈ ids', ∀ cl,
      getl (setl (setl links index { link with release := relVal }) j0
        { next with acquire := acqVal }) x = some cl →
      ∀ j cl', find_next (setl (setl links index { link with release := relVal }) j0
        { next with acquire := acqVal }) x = some j →
        getl (setl (setl links index { link with release := relVal }) j0
          { next with acquire := acqVal }) j = some cl' →
          cl'.acquire = LinkSync.none) := by
  have hil : index < links.length := getl_isSome_lt (by simp [hcur])
  have hj0l : j0 < links.length := getl_isSome_lt (by simp [hnext])
  have hj0i : j0 ≠ index := (find_next_spec hil hfn).2.2.1
  have hstab : ∀ x, find_next (setl (setl links index
      { link with release := relVal }) j0 { next with acquire := acqVal }) x
      = find_next links x := by
    intro x
    rw [find_next_setl (by
      rw [isSome_getl_setl (by simp [hcur])]
      simp [hnext]) _ x]
    exact find_next_setl (by simp [hcur]) _ x
  constructor
  · intro x hx cl hcl
    have hxi : x ≠ index := fun hh => hnotin (hh ▸ hx)
    by_cases hxj : x = j0
    · subst hxj
      rw [getl_setl_self (by rw [length_setl]; exact hj0l) _] at hcl
      have hc := (Option.some.inj hcl).symm
      rw [hc]
      show next.release = LinkSync.none
      exact hfresh x (List.mem_cons_of_mem _ hx) next hnext
    · rw [getl_setl_ne hxj, getl_setl_ne hxi] at hcl
      exact hfresh x (List.mem_cons_of_mem _ hx) cl hcl
  · intro x hx cl hcl j cl' hfnx hj
    have hxi : x ≠ index := fun hh => hnotin (hh ▸ hx)
    rw [hstab x] at hfnx
    have hxex : (getl links x).isSome = true := by
      by_cases hxj : x = j0
      · subst hxj
        simp [hnext]
      · rw [getl_setl_ne hxj, getl_setl_ne hxi] at hcl
        simp [hcl]
    by_cases hjj0 : j = j0
    · exfalso
      subst hjj0
      have := find_next_inj hxex (by simp [hcur]) hfnx hfn
      exact hxi this
    · by_cases hji : j = index
      · subst hji
        rw [getl_setl_ne hjj0, getl_setl_self hil _] at hj
        have hc := (Option.some.inj hj).symm
        rw [hc]
        show link.acquire = LinkSync.none
        cases hclx : getl links x with
        | none => rw [hclx] at hxex; exact absurd hxex (by simp)
        | some clx =>
          exact hacq x (List.mem_cons_of_mem _ hx) clx hclx j link hfnx hcur
      · rw [getl_setl_ne hjj0, getl_setl_ne hji] at hj
        cases hclx : getl links x with
        | none => rw [hclx] at hxex; exact absurd hxex (by simp)
        | some clx =>
          exact hacq x (List.mem_cons_of_mem _ hx) clx hclx j cl' hfnx hj

/-- Step 3 preserves the matched-transfer property as long as the indices it
still has to process have no-op releases and no-op acquires at their
successors. -/
theorem sync_pass_pairing {T A S W : Type} [DecidableEq T] (ops : StateOps T A)
    (alloc : Nat → S × W) :
    ∀ (ids : List Nat), ids.Nodup →
    ∀ (c : Nat) (links : List (Option (ChainLink T S W))),
      (∀ x ∈ ids, ∀ cl, getl links x = some cl →
        cl.release = LinkSync.none) →
      (∀ x ∈ ids, ∀ cl, getl links x = some cl →
        ∀ j cl', find_next links x = some j → getl links j = some cl' →
          cl'.acquire = LinkSync.none) →
      transfer_matched alloc links →
      transfer_matched alloc (sync_pass ops alloc ids c links) := by
  intro ids
  induction ids with
  | nil => intro _ c links _ _ htm; exact htm
  | cons index rest ih =>
    intro hnd c links hfresh hacq htm
    have hnotin : index ∉ rest := (List.nodup_cons.mp hnd).1
    have hndr : rest.Nodup := (List.nodup_cons.mp hnd).2
    have hfreshr : ∀ x ∈ rest, ∀ cl, getl links x = some cl →
        cl.release = LinkSync.none :=
      fun x hx => hfresh x (List.mem_cons_of_mem _ hx)
    have hacqr : ∀ x ∈ rest, ∀ cl, getl links x = some cl →
        ∀ j cl', find_next links x = some j → getl links j = some cl' →
          cl'.acquire = LinkSync.none :=
      fun x hx => hacq x (List.mem_cons_of_mem _ hx)
    rw [sync_pass]
    cases hcur : getl links index with
    | none => exact ih hndr c links hfreshr hacqr htm
    | some link =>
      dsimp only
      cases hfn : find_next links index with
      | none => exact htm
      | some j0 =>
        dsimp only
        cases hnext : getl links j0 with
        | none => exact htm
        | some next =>
          dsimp only
          have hrelnone : link.release = LinkSync.none :=
            hfresh index (List.mem_cons_self index rest) link hcur
          have hacqnone : next.acquire = LinkSync.none :=
            hacq index (List.mem_cons_self index rest) link hcur j0 next hfn hnext
          by_cases hmq : (ops.merge link.state next.state).isSome = true ∧
              link.queue = next.queue
          · rw [if_pos hmq]
            exact ih hndr c links hfreshr hacqr htm
          · rw [if_neg hmq]
            by_cases hq : link.queue = next.queue
            · rw [if_pos hq]
              refine ih hndr c _ ?_ ?_ ?_
              · exact (rest_conditions_single hcur rest hnotin hfresh hacq _).1
              · exact (rest_conditions_single hcur rest hnotin hfresh hacq _).2
              · exact transfer_matched_rel_single hcur hrelnone _
                  (by intro sem st sg o h; cases h) htm
            · rw [if_neg hq]
              by_cases hf : link.queue.family = next.queue.family
              · rw [if_pos hf]
                repeat' split
                all_goals
                  exact ih hndr (c + 1) _
                    (rest_conditions_double hcur hnext hfn rest hnotin
                      hfresh hacq _ _).1
                    (rest_conditions_double hcur hnext hfn rest hnotin
                      hfresh hacq _ _).2
                    (transfer_matched_nontransfer_double hcur hnext hfn
                      hrelnone hacqnone _ _
                      (by intro sem st sg o h; cases h)
                      (by intro sem st sg o h; cases h) htm)
              · rw [if_neg hf]
                refine ih hndr (c + 1) _ ?_ ?_ ?_
                · exact (rest_conditions_double hcur hnext hfn rest hnotin
                    hfresh hacq _ _).1
                · exact (rest_conditions_double hcur hnext hfn rest hnotin
                    hfresh hacq _ _).2
                · exact transfer_matched_transfer_double hcur hnext hfn
                    hrelnone hacqnone c _ _ htm

/-- Step 1 produces links whose synchronization decisions are both no-op. -/
theorem collect_no_sync {T U S W : Type} [DecidableEq T] [DecidableEq U]
    (id : Nat) (passes : List (PassLinks T U)) (i : Nat) (cl : ChainLink T S W)
    (h : getl (collect id passes) i = some cl) :
    cl.release = LinkSync.none ∧ cl.acquire = LinkSync.none := by
  rw [getl_collect] at h
  cases hp : passes[i]? with
  | none => rw [hp] at h; cases h
  | some pass =>
    rw [hp] at h
    dsimp only at h
    cases hf : pass.links.find? (fun link => link.id == id) with
    | none => rw [hf] at h; cases h
    | some l =>
      rw [hf, Option.map_some'] at h
      rw [← Option.some.inj h]
      exact ⟨rfl, rfl⟩

/-- A ring without any synchronization decision trivially satisfies the
matched-transfer property. -/
theorem transfer_matched_of_no_sync {T S W : Type} (alloc : Nat → S × W)
    (links : List (Option (ChainLink T S W)))
    (h : ∀ i cl, getl links i = some cl →
      cl.release = LinkSync.none ∧ cl.acquire = LinkSync.none) :
    transfer_matched alloc links := by
  constructor
  · intro i cl sem st sg o hcl hrel
    rw [(h i cl hcl).1] at hrel
    cases hrel
  · intro j cl' sem st sg o hcl' hacq
    rw [(h j cl' hcl').2] at hacq
    cases hacq

/-- Every chain `Chain::build` returns satisfies the matched-transfer
property: ownership-transfer decisions only occur as release/acquire pairs
sharing one allocator call and naming each other's queues. -/
theorem build_transfer_matched {T A U I S W : Type}
    [DecidableEq T] [DecidableEq U] (ops : StateOps T A) (orU : U → U → U)
    (id : Nat) (usage : U) (init : I) (alloc : Nat → S × W)
    (passes : List (PassLinks T U)) (ch : Chain T U I S W)
    (h : Chain.build ops orU id usage init passes alloc = some ch) :
    transfer_matched alloc ch.links := by
  unfold Chain.build at h
  dsimp only at h
  split at h
  case isTrue hc => cases h
  case isFalse hc =>
    have hch := (Option.some.inj h).symm
    rw [hch]
    have hmerged : ∀ x (cl : ChainLink T S W),
        getl (merge_pass ops
          ((List.range ((collect (S := S) (W := W) id passes).length * 2)).map
            (fun i => i % (collect (S := S) (W := W) id passes).length))
          (collect id passes)) x = some cl →
        cl.release = LinkSync.none ∧ cl.acquire = LinkSync.none := by
      intro x cl hcl
      obtain ⟨cl0, h0, _, _, _, hacq0, hrel0⟩ :=
        merge_pass_preserves_fields ops _ _ x cl hcl
      obtain ⟨hr0, ha0⟩ := collect_no_sync id passes x cl0 h0
      exact ⟨hrel0.trans hr0, hacq0.trans ha0⟩
    show transfer_matched alloc (sync_pass ops alloc _ 0 _)
    refine sync_pass_pairing ops alloc _ (List.nodup_range _) 0 _ ?_ ?_ ?_
    · intro x _ cl hcl
      exact (hmerged x cl hcl).1
    · intro x _ cl hcl j cl' _ hj
      exact (hmerged j cl' hj).2
    · exact transfer_matched_of_no_sync alloc _ (fun i cl hcl => hmerged i cl hcl)

/-- Claim C4: for a two-pass ring on queues of different queue families,
`Chain::build` resolves both transitions to matched ownership-transfer
pairs: each transition's release and acquire share the signal/wait handles
of one allocator call, carry the same access-stripped state range and the
same stage range, and each end's `other` field names the peer queue (the
release names the acquiring queue, the acquire names the releasing queue);
moreover, for every ring, every chain `Chain::build` returns satisfies the
matched-transfer property: ownership-transfer decisions never occur except
in such matched pairs. -/
theorem build_two_queues_cross_family_transfer_pairs {T A U I S W : Type}
    [DecidableEq T] [DecidableEq U] (ops : StateOps T A) (orU : U → U → U)
    (id : Nat) (usage : U) (init : I) (alloc : Nat → S × W)
    (p0 p1 : PassLinks T U) (lk0 lk1 : Link T U)
    (hf0 : p0.links.find? (fun l => l.id == id) = some lk0)
    (hf1 : p1.links.find? (fun l => l.id == id) = some lk1)
    (hfam : p0.queue.family ≠ p1.queue.family) :
    ∃ ch : Chain T U I S W,
      Chain.build ops orU id usage init [p0, p1] alloc = some ch ∧
      ch.links.length = 2 ∧
      getl ch.links 0 = some
        { queue := p0.queue, stages := lk0.stages, state := lk0.state,
          merged_state := lk0.state, merged_stages := lk0.stages,
          acquire := (LinkSync.transfer (alloc 1).2
            (ops.with_no_access (if ops.is_read (ops.accessOf lk0.state)
              then lk1.state else ops.discard_content lk1.state),
              ops.with_no_access lk0.state)
            (lk1.stages, lk0.stages) p1.queue),
          release := (LinkSync.transfer (alloc 0).1
            (ops.with_no_access (if ops.is_read (ops.accessOf lk1.state)
              then lk0.state else ops.discard_content lk0.state),
              ops.with_no_access lk1.state)
            (lk0.stages, lk1.stages) p1.queue) } ∧
      getl ch.links 1 = some
        { queue := p1.queue, stages := lk1.stages, state := lk1.state,
          merged_state := lk1.state, merged_stages := lk1.stages,
          acquire := (LinkSync.transfer (alloc 0).2
            (ops.with_no_access (if ops.is_read (ops.accessOf lk1.state)
              then lk0.state else ops.discard_content lk0.state),
              ops.with_no_access lk1.state)
            (lk0.stages, lk1.stages) p0.queue),
          release := (LinkSync.transfer (alloc 1).1
            (ops.with_no_access (if ops.is_read (ops.accessOf lk0.state)
              then lk1.state else ops.discard_content lk1.state),
              ops.with_no_access lk0.state)
            (lk1.stages, lk0.stages) p0.queue) } ∧
      ∀ (passes : List (PassLinks T U)) (ch2 : Chain T U I S W),
        Chain.build ops orU id usage init passes alloc = some ch2 →
          transfer_matched alloc ch2.links := by
  have hclen2 : (collect (S := S) (W := W) id [p0, p1]).length = 2 := by
    rw [length_collect]
    rfl
  have hc0 : getl (collect (S := S) (W := W) id [p0, p1]) 0 = some
      { queue := p0.queue, stages := lk0.stages, state := lk0.state,
        merged_state := lk0.state, merged_stages := lk0.stages,
        acquire := LinkSync.none, release := LinkSync.none } := by
    rw [getl_collect]
    simp only [List.getElem?_cons_zero]
    rw [hf0]
    rfl
  have hc1 : getl (collect (S := S) (W := W) id [p0, p1]) 1 = some
      { queue := p1.queue, stages := lk1.stages, state := lk1.state,
        merged_state := lk1.state, merged_stages := lk1.stages,
        acquire := LinkSync.none, release := LinkSync.none } := by
    rw [getl_collect]
    simp only [List.getElem?_cons_succ, List.getElem?_cons_zero]
    rw [hf1]
    rfl
  have hmpid : merge_pass ops
      ((List.range (2 * 2)).map (fun i => i % 2))
      (collect (S := S) (W := W) id [p0, p1])
        = collect (S := S) (W := W) id [p0, p1] := by
    refine merge_pass_id_of_unmergeable ops 2 (by omega)
      (fun k => if k = 0 then
        { queue := p0.queue, stages := lk0.stages, state := lk0.state,
          merged_state := lk0.state, merged_stages := lk0.stages,
          acquire := LinkSync.none, release := LinkSync.none }
        else
        { queue := p1.queue, stages := lk1.stages, state := lk1.state,
          merged_state := lk1.state, merged_stages := lk1.stages,
          acquire := LinkSync.none, release := LinkSync.none })
      ?_ _ ?_ _ hclen2 ?_
    · intro k hk
      match k, hk with
      | 0, _ =>
        refine Or.inr ?_
        intro h
        exact hfam (congrArg QueueId.family h)
      | 1, _ =>
        refine Or.inr ?_
        intro h
        exact hfam (congrArg QueueId.family h).symm
    · intro x hx
      obtain ⟨a, _, ha⟩ := List.mem_map.mp hx
      rw [← ha]
      exact Nat.mod_lt _ (by omega)
    · intro k hk
      match k, hk with
      | 0, _ => exact hc0
      | 1, _ => exact hc1
  have hsync := sync_pass_two_ring_transfer ops alloc 0
    (collect (S := S) (W := W) id [p0, p1])
    { queue := p0.queue, stages := lk0.stages, state := lk0.state,
      merged_state := lk0.state, merged_stages := lk0.stages,
      acquire := LinkSync.none, release := LinkSync.none }
    { queue := p1.queue, stages := lk1.stages, state := lk1.state,
      merged_state := lk1.state, merged_stages := lk1.stages,
      acquire := LinkSync.none, release := LinkSync.none }
    hclen2 hc0 hc1 hfam
  unfold Chain.build
  dsimp only
  rw [hclen2, hmpid]
  rw [show (List.range 2) = [0, 1] from rfl]
  rw [if_neg (by
    intro hall
    rw [all_isNone_iff] at hall
    have h0 := hall 0
    rw [hsync.1] at h0
    exact absurd h0 (by simp))]
  exact ⟨_, rfl, hsync.2.2, hsync.1, hsync.2.1,
    fun passes ch2 hch2 =>
      build_transfer_matched ops orU id usage init alloc passes ch2 hch2⟩

/-- Processing only slot 1 of a two-slot all-present ring (same queue
family, different queues, access-stripped endpoints equal): semaphore-only
release/acquire pair. -/
theorem sync_pass_last_sem_eq {T A S W : Type} [DecidableEq T]
    (ops : StateOps T A) (alloc : Nat → S × W) (c : Nat)
    (links : List (Option (ChainLink T S W))) (x y : ChainLink T S W)
    (hlen : links.length = 2)
    (h0 : getl links 0 = some x) (h1 : getl links 1 = some y)
    (hq : y.queue ≠ x.queue) (hfam : y.queue.family = x.queue.family)
    (hE : ops.with_no_access (if ops.is_read (ops.accessOf x.state)
        then y.merged_state else ops.discard_content y.merged_state)
      = ops.with_no_access x.merged_state) :
    getl (sync_pass ops alloc [1] c links) 1 = some
      { y with release := LinkSync.semaphore (alloc c).1 } ∧
    getl (sync_pass ops alloc [1] c links) 0 = some
      { x with acquire := LinkSync.semaphore (alloc c).2 } ∧
    (sync_pass ops alloc [1] c links).length = 2 := by
  have hall : ∀ k, k < 2 → (getl links k).isSome = true := by
    intro k hk
    match k, hk with
    | 0, _ => rw [h0]; rfl
    | 1, _ => rw [h1]; rfl
  have hfn1 : find_next links 1 = some 0 := by
    have := find_next_all_existing hlen (by omega) hall 1
    simpa using this
  rw [sync_pass, h1]
  dsimp only
  rw [hfn1]
  dsimp only
  rw [h0]
  dsimp only
  rw [if_neg (fun hc => hq hc.2), if_neg hq, if_pos hfam, if_pos hE]
  rw [sync_pass]
  refine ⟨?_, ?_, ?_⟩
  · rw [getl_setl_ne (by omega),
      getl_setl_self (by rw [hlen]; omega)]
  · rw [getl_setl_self (by rw [length_setl, hlen]; omega)]
  · rw [length_setl, length_setl, hlen]

/-- Processing only slot 1 of a two-slot all-present ring (same queue
family, different queues, access-stripped endpoints differ): the release
folds a barrier into the semaphore signal, the acquire is semaphore-only. -/
theorem sync_pass_last_sem_ne {T A S W : Type} [DecidableEq T]
    (ops : StateOps T A) (alloc : Nat → S × W) (c : Nat)
    (links : List (Option (ChainLink T S W))) (x y : ChainLink T S W)
    (hlen : links.length = 2)
    (h0 : getl links 0 = some x) (h1 : getl links 1 = some y)
    (hq : y.queue ≠ x.queue) (hfam : y.queue.family = x.queue.family)
    (hE : ¬(ops.with_no_access (if ops.is_read (ops.accessOf x.state)
        then y.merged_state else ops.discard_content y.merged_state)
      = ops.with_no_access x.merged_state)) :
    getl (sync_pass ops alloc [1] c links) 1 = some
      { y with release := (LinkSync.barrierSemaphore (alloc c).1
          (ops.with_no_access (if ops.is_read (ops.accessOf x.state)
            then y.merged_state else ops.discard_content y.merged_state),
            ops.with_no_access x.merged_state)
          (y.merged_stages, x.merged_stages)) } ∧
    getl (sync_pass ops alloc [1] c links) 0 = some
      { x with acquire := LinkSync.semaphore (alloc c).2 } ∧
    (sync_pass ops alloc [1] c links).length = 2 := by
  have hall : ∀ k, k < 2 → (getl links k).isSome = true := by
    intro k hk
    match k, hk with
    | 0, _ => rw [h0]; rfl
    | 1, _ => rw [h1]; rfl
  have hfn1 : find_next links 1 = some 0 := by
    have := find_next_all_existing hlen (by omega) hall 1
    simpa using this
  rw [sync_pass, h1]
  dsimp only
  rw [hfn1]
  dsimp only
  rw [h0]
  dsimp only
  rw [if_neg (fun hc => hq hc.2), if_neg hq, if_pos hfam, if_neg hE]
  rw [sync_pass]
  refine ⟨?_, ?_, ?_⟩
  · rw [getl_setl_ne (by omega),
      getl_setl_self (by rw [hlen]; omega)]
  · rw [getl_setl_self (by rw [length_setl, hlen]; omega)]
  · rw [length_setl, length_setl, hlen]

/-- Step-3 on a two-slot all-present ring with two different queues of one
family: each transition strips access bits from both endpoints, allocates
one signal/wait pair, and emits a semaphore-only pair when the stripped
endpoints coincide, otherwise a barrier-plus-semaphore release with a
semaphore-only acquire. -/
theorem sync_pass_two_ring_semaphore {T A S W : Type} [DecidableEq T]
    (ops : StateOps T A) (alloc : Nat → S × W) (c : Nat)
    (links : List (Option (ChainLink T S W))) (l0 l1 : ChainLink T S W)
    (hlen : links.length = 2)
    (h0 : getl links 0 = some l0) (h1 : getl links 1 = some l1)
    (hq : l0.queue ≠ l1.queue) (hfam : l0.queue.family = l1.queue.family) :
    getl (sync_pass ops alloc [0, 1] c links) 0 = some
      { l0 with
        release := (if ops.with_no_access (if ops.is_read (ops.accessOf l1.state)
            then l0.merged_state else ops.discard_content l0.merged_state)
            = ops.with_no_access l1.merged_state
          then LinkSync.semaphore (alloc c).1
          else LinkSync.barrierSemaphore (alloc c).1
            (ops.with_no_access (if ops.is_read (ops.accessOf l1.state)
              then l0.merged_state else ops.discard_content l0.merged_state),
              ops.with_no_access l1.merged_state)
            (l0.merged_stages, l1.merged_stages)),
        acquire := LinkSync.semaphore (alloc (c + 1)).2 } ∧
    getl (sync_pass ops alloc [0, 1] c links) 1 = some
      { l1 with
        acquire := LinkSync.semaphore (alloc c).2,
        release := (if ops.with_no_access (if ops.is_read (ops.accessOf l0.state)
            then l1.merged_state else ops.discard_content l1.merged_state)
            = ops.with_no_access l0.merged_state
          then LinkSync.semaphore (alloc (c + 1)).1
          else LinkSync.barrierSemaphore (alloc (c + 1)).1
            (ops.with_no_access (if ops.is_read (ops.accessOf l0.state)
              then l1.merged_state else ops.discard_content l1.merged_state),
              ops.with_no_access l0.merged_state)
            (l1.merged_stages, l0.merged_stages)) } ∧
    (sync_pass ops alloc [0, 1] c links).length = 2 := by
  have hall : ∀ k, k < 2 → (getl links k).isSome = true := by
    intro k hk
    match k, hk with
    | 0, _ => rw [h0]; rfl
    | 1, _ => rw [h1]; rfl
  have hfn0 : find_next links 0 = some 1 := by
    have := find_next_all_existing hlen (by omega) hall 0
    simpa using this
  rw [sync_pass, h0]
  dsimp only
  rw [hfn0]
  dsimp only
  rw [h1]
  dsimp only
  rw [if_neg (fun hc => hq hc.2), if_neg hq, if_pos hfam]
  by_cases hE0 : ops.with_no_access (if ops.is_read (ops.accessOf l1.state)
      then l0.merged_state else ops.discard_content l0.merged_state)
    = ops.with_no_access l1.merged_state
  · rw [if_pos hE0]
    set X := { l0 with release := LinkSync.semaphore (alloc c).1 } with hX
    set Y := { l1 with acquire := LinkSync.semaphore (alloc c).2 } with hY
    have hlen1 : (setl (setl links 0 X) 1 Y).length = 2 := by
      rw [length_setl, length_setl]
      exact hlen
    have hg1 : getl (setl (setl links 0 X) 1 Y) 1 = some Y :=
      getl_setl_self (by rw [length_setl, hlen]; omega) Y
    have hg0 : getl (setl (setl links 0 X) 1 Y) 0 = some X := by
      rw [getl_setl_ne (by omega), getl_setl_self (by rw [hlen]; omega)]
    by_cases hE1 : ops.with_no_access (if ops.is_read (ops.accessOf l0.state)
        then l1.merged_state else ops.discard_content l1.merged_state)
      = ops.with_no_access l0.merged_state
    · have hstep := sync_pass_last_sem_eq ops alloc (c + 1) _ X Y hlen1 hg0 hg1
        (fun hh => hq hh.symm) hfam.symm hE1
      refine ⟨?_, ?_, hstep.2.2⟩
      · rw [if_pos hE0]
        exact hstep.2.1
      · rw [if_pos hE1]
        exact hstep.1
    · have hstep := sync_pass_last_sem_ne ops alloc (c + 1) _ X Y hlen1 hg0 hg1
        (fun hh => hq hh.symm) hfam.symm hE1
      refine ⟨?_, ?_, hstep.2.2⟩
      · rw [if_pos hE0]
        exact hstep.2.1
      · rw [if_neg hE1]
        exact hstep.1
  · rw [if_neg hE0]
    set X := { l0 with release := (LinkSync.barrierSemaphore (alloc c).1
      (ops.with_no_access (if ops.is_read (ops.accessOf l1.state)
        then l0.merged_state else ops.discard_content l0.merged_state),
        ops.with_no_access l1.merged_state)
      (l0.merged_stages, l1.merged_stages)) } with hX
    set Y := { l1 with acquire := LinkSync.semaphore (alloc c).2 } with hY
    have hlen1 : (setl (setl links 0 X) 1 Y).length = 2 := by
      rw [length_setl, length_setl]
      exact hlen
    have hg1 : getl (setl (setl links 0 X) 1 Y) 1 = some Y :=
      getl_setl_self (by rw [length_setl, hlen]; omega) Y
    have hg0 : getl (setl (setl links 0 X) 1 Y) 0 = some X := by
      rw [getl_setl_ne (by omega), getl_setl_self (by rw [hlen]; omega)]
    by_cases hE1 : ops.with_no_access (if ops.is_read (ops.accessOf l0.state)
        then l1.merged_state else ops.discard_content l1.merged_state)
      = ops.with_no_access l0.merged_state
    · have hstep := sync_pass_last_sem_eq ops alloc (c + 1) _ X Y hlen1 hg0 hg1
        (fun hh => hq hh.symm) hfam.symm hE1
      refine ⟨?_, ?_, hstep.2.2⟩
      · rw [if_neg hE0]
        exact hstep.2.1
      · rw [if_pos hE1]
        exact hstep.1
    · have hstep := sync_pass_last_sem_ne ops alloc (c + 1) _ X Y hlen1 hg0 hg1
        (fun hh => hq hh.symm) hfam.symm hE1
      refine ⟨?_, ?_, hstep.2.2⟩
      · rw [if_neg hE0]
        exact hstep.2.1
      · rw [if_neg hE1]
        exact hstep.1

/-- Claim C3: for a two-pass ring with non-mergeable states on two
different queues of one queue family, `Chain::build` strips access bits
from both endpoints of each transition range and allocates one signal/wait
pair per transition; when the stripped endpoints coincide the release and
acquire are semaphore-only, otherwise the release is barrier-plus-semaphore
carrying the stripped state range and the stage range while the acquire
stays semaphore-only. -/
theorem build_two_queues_same_family_semaphore {T A U I S W : Type}
    [DecidableEq T] [DecidableEq U] (ops : StateOps T A) (orU : U → U → U)
    (id : Nat) (usage : U) (init : I) (alloc : Nat → S × W)
    (p0 p1 : PassLinks T U) (lk0 lk1 : Link T U)
    (hf0 : p0.links.find? (fun l => l.id == id) = some lk0)
    (hf1 : p1.links.find? (fun l => l.id == id) = some lk1)
    (hq : p0.queue ≠ p1.queue)
    (hfam : p0.queue.family = p1.queue.family)
    (hm01 : ops.merge lk0.state lk1.state = Option.none)
    (hm10 : ops.merge lk1.state lk0.state = Option.none) :
    ∃ ch : Chain T U I S W,
      Chain.build ops orU id usage init [p0, p1] alloc = some ch ∧
      ch.links.length = 2 ∧
      getl ch.links 0 = some
        { queue := p0.queue, stages := lk0.stages, state := lk0.state,
          merged_state := lk0.state, merged_stages := lk0.stages,
          acquire := LinkSync.semaphore (alloc 1).2,
          release := (if ops.with_no_access (if ops.is_read (ops.accessOf lk1.state)
              then lk0.state else ops.discard_content lk0.state)
              = ops.with_no_access lk1.state
            then LinkSync.semaphore (alloc 0).1
            else LinkSync.barrierSemaphore (alloc 0).1
              (ops.with_no_access (if ops.is_read (ops.accessOf lk1.state)
                then lk0.state else ops.discard_content lk0.state),
                ops.with_no_access lk1.state)
              (lk0.stages, lk1.stages)) } ∧
      getl ch.links 1 = some
        { queue := p1.queue, stages := lk1.stages, state := lk1.state,
          merged_state := lk1.state, merged_stages := lk1.stages,
          acquire := LinkSync.semaphore (alloc 0).2,
          release := (if ops.with_no_access (if ops.is_read (ops.accessOf lk0.state)
              then lk1.state else ops.discard_content lk1.state)
              = ops.with_no_access lk0.state
            then LinkSync.semaphore (alloc 1).1
            else LinkSync.barrierSemaphore (alloc 1).1
              (ops.with_no_access (if ops.is_read (ops.accessOf lk0.state)
                then lk1.state else ops.discard_content lk1.state),
                ops.with_no_access lk0.state)
              (lk1.stages, lk0.stages)) } := by
  have hclen2 : (collect (S := S) (W := W) id [p0, p1]).length = 2 := by
    rw [length_collect]
    rfl
  have hc0 : getl (collect (S := S) (W := W) id [p0, p1]) 0 = some
      { queue := p0.queue, stages := lk0.stages, state := lk0.state,
        merged_state := lk0.state, merged_stages := lk0.stages,
        acquire := LinkSync.none, release := LinkSync.none } := by
    rw [getl_collect]
    simp only [List.getElem?_cons_zero]
    rw [hf0]
    rfl
  have hc1 : getl (collect (S := S) (W := W) id [p0, p1]) 1 = some
      { queue := p1.queue, stages := lk1.stages, state := lk1.state,
        merged_state := lk1.state, merged_stages := lk1.stages,
        acquire := LinkSync.none, release := LinkSync.none } := by
    rw [getl_collect]
    simp only [List.getElem?_cons_succ, List.getElem?_cons_zero]
    rw [hf1]
    rfl
  have hmpid : merge_pass ops
      ((List.range (2 * 2)).map (fun i => i % 2))
      (collect (S := S) (W := W) id [p0, p1])
        = collect (S := S) (W := W) id [p0, p1] := by
    refine merge_pass_id_of_unmergeable ops 2 (by omega)
      (fun k => if k = 0 then
        { queue := p0.queue, stages := lk0.stages, state := lk0.state,
          merged_state := lk0.state, merged_stages := lk0.stages,
          acquire := LinkSync.none, release := LinkSync.none }
        else
        { queue := p1.queue, stages := lk1.stages, state := lk1.state,
          merged_state := lk1.state, merged_stages := lk1.stages,
          acquire := LinkSync.none, release := LinkSync.none })
      ?_ _ ?_ _ hclen2 ?_
    · intro k hk
      match k, hk with
      | 0, _ => exact Or.inl hm01
      | 1, _ => exact Or.inl hm10
    · intro x hx
      obtain ⟨a, _, ha⟩ := List.mem_map.mp hx
      rw [← ha]
      exact Nat.mod_lt _ (by omega)
    · intro k hk
      match k, hk with
      | 0, _ => exact hc0
      | 1, _ => exact hc1
  have hsync := sync_pass_two_ring_semaphore ops alloc 0
    (collect (S := S) (W := W) id [p0, p1])
    { queue := p0.queue, stages := lk0.stages, state := lk0.state,
      merged_state := lk0.state, merged_stages := lk0.stages,
      acquire := LinkSync.none, release := LinkSync.none }
    { queue := p1.queue, stages := lk1.stages, state := lk1.state,
      merged_state := lk1.state, merged_stages := lk1.stages,
      acquire := LinkSync.none, release := LinkSync.none }
    hclen2 hc0 hc1 hq hfam
  unfold Chain.build
  dsimp only
  rw [hclen2, hmpid]
  rw [show (List.range 2) = [0, 1] from rfl]
  rw [if_neg (by
    intro hall
    rw [all_isNone_iff] at hall
    have h0 := hall 0
    rw [hsync.1] at h0
    exact absurd h0 (by simp))]
  exact ⟨_, rfl, hsync.2.2, hsync.1, hsync.2.1⟩



theorem findIdx?_isSome_congr {α : Type} :
    ∀ (l l' : List (Option α)) (i : Nat), l.length = l'.length →
    (∀ j : Nat, ((l[j]?).getD (Option.none : Option α)).isSome
      = ((l'[j]?).getD (Option.none : Option α)).isSome) →
    l.findIdx? Option.isSome i = l'.findIdx? Option.isSome i := by
  intro l
  induction l with
  | nil =>
    intro l' i hlen _
    cases l' with
    | nil => rfl
    | cons a' t' => simp at hlen
  | cons a t ih =>
    intro l' i hlen hsame
    cases l' with
    | nil => simp at hlen
    | cons a' t' =>
      rw [List.findIdx?_cons, List.findIdx?_cons]
      have h0 : a.isSome = a'.isSome := by
        have := hsame 0
        simpa using this
      by_cases ha : a.isSome = true
      · rw [if_pos ha, if_pos (h0 ▸ ha)]
      · rw [if_neg ha, if_neg (fun hh => ha (h0.trans hh))]
        refine ih t' (i + 1) (by simpa using hlen) ?_
        intro j
        have := hsame (j + 1)
        simpa using this

theorem first_index_shape {T S W : Type}
    {links links' : List (Option (ChainLink T S W))}
    (hlen : links'.length = links.length)
    (hsame : ∀ j, (getl links' j).isSome = (getl links j).isSome) :
    first_index links' = first_index links := by
  unfold first_index
  exact findIdx?_isSome_congr links' links 0 hlen hsame

theorem last_index_shape {T S W : Type}
    {links links' : List (Option (ChainLink T S W))}
    (hlen : links'.length = links.length)
    (hsame : ∀ j, (getl links' j).isSome = (getl links j).isSome) :
    last_index links' = last_index links := by
  unfold last_index
  have hrev : links'.reverse.findIdx? Option.isSome 0
      = links.reverse.findIdx? Option.isSome 0 := by
    refine findIdx?_isSome_congr links'.reverse links.reverse 0
      (by simp [hlen]) ?_
    intro j
    by_cases hj : j < links.length
    · rw [List.getElem?_reverse (by rw [hlen]; exact hj),
        List.getElem?_reverse hj, hlen]
      exact hsame (links.length - 1 - j)
    · rw [List.getElem?_eq_none (by simp [hlen]; omega),
        List.getElem?_eq_none (by simp; omega)]
  rw [hrev, hlen]

/-- Claim C8: `with_presentable_sync` succeeds exactly when the first
link's acquire and the last link's release are still the no-op variant; on
success it patches exactly those two decisions (first acquire and last
release become the presentable ownership transfers, everything else is
unchanged), and a second application to the result always fails; it fails
whenever either boundary link already carries a synchronization decision. -/
theorem with_presentable_sync_once {S W : Type} (c : ImageChain S W)
    (acq : W) (fromL : ImageLayout) (rel : S) (toL : ImageLayout) :
    (∀ c', c.with_presentable_sync acq fromL rel toL = some c' →
      (∃ i li, first_index c.links = some i ∧ getl c.links i = some li ∧
        li.acquire = LinkSync.none ∧
        ∃ k lk, last_index c.links = some k ∧ getl c.links k = some lk ∧
          lk.release = LinkSync.none ∧
          c'.links.length = c.links.length ∧
          c'.usage = c.usage ∧ c'.init = c.init ∧
          (∀ j, j ≠ i → j ≠ k → getl c'.links j = getl c.links j) ∧
          (∃ li', getl c'.links i = some li' ∧
            li'.acquire = LinkSync.transfer acq ((0, fromL), li.state)
              (PipelineStage.BOTTOM_OF_PIPE, li.stages) li.queue) ∧
          (∃ lk', getl c'.links k = some lk' ∧
            lk'.release = LinkSync.transfer rel (lk.state, (0, toL))
              (lk.stages, PipelineStage.TOP_OF_PIPE) lk.queue)) ∧
      ∀ acq2 f2 rel2 t2,
        c'.with_presentable_sync acq2 f2 rel2 t2 = Option.none) ∧
    (∀ i li, first_index c.links = some i → getl c.links i = some li →
      li.acquire ≠ LinkSync.none →
      c.with_presentable_sync acq fromL rel toL = Option.none) ∧
    (∀ k lk, first_index c.links ≠ Option.none →
      (∀ i li, first_index c.links = some i → getl c.links i = some li →
        li.acquire = LinkSync.none) →
      last_index c.links = some k → getl c.links k = some lk →
      lk.release ≠ LinkSync.none →
      c.with_presentable_sync acq fromL rel toL = Option.none) := by
  refine ⟨?_, ?_, ?_⟩
  · intro c' hsucc
    unfold ImageChain.with_presentable_sync at hsucc
    cases hfi : first_index c.links with
    | none => rw [hfi] at hsucc; exact absurd hsucc (by simp)
    | some i =>
      rw [hfi] at hsucc
      dsimp only at hsucc
      cases hgi : getl c.links i with
      | none => rw [hgi] at hsucc; exact absurd hsucc (by simp)
      | some li =>
        rw [hgi] at hsucc
        dsimp only at hsucc
        cases hacq : li.acquire with
        | barrier st sg => rw [hacq] at hsucc; exact absurd hsucc (by simp)
        | semaphore s => rw [hacq] at hsucc; exact absurd hsucc (by simp)
        | barrierSemaphore s st sg =>
          rw [hacq] at hsucc
          exact absurd hsucc (by simp)
        | transfer s st sg o => rw [hacq] at hsucc; exact absurd hsucc (by simp)
        | none =>
          rw [hacq] at hsucc
          dsimp only at hsucc
          have hilt : i < c.links.length := getl_isSome_lt (by simp [hgi])
          have hshape1 : ∀ j, (getl (setl c.links i
              { li with acquire := (LinkSync.transfer acq ((0, fromL), li.state)
                (PipelineStage.BOTTOM_OF_PIPE, li.stages) li.queue) }) j).isSome
              = (getl c.links j).isSome :=
            isSome_getl_setl (by simp [hgi]) _
          rw [last_index_shape (length_setl ..) hshape1] at hsucc
          cases hla : last_index c.links with
          | none => rw [hla] at hsucc; exact absurd hsucc (by simp)
          | some k =>
            rw [hla] at hsucc
            dsimp only at hsucc
            cases hgk1 : getl (setl c.links i
                { li with acquire := (LinkSync.transfer acq ((0, fromL), li.state)
                  (PipelineStage.BOTTOM_OF_PIPE, li.stages) li.queue) }) k with
            | none => rw [hgk1] at hsucc; exact absurd hsucc (by simp)
            | some lk1 =>
              rw [hgk1] at hsucc
              dsimp only at hsucc
              cases hrel : lk1.release with
              | barrier st sg => rw [hrel] at hsucc; exact absurd hsucc (by simp)
              | semaphore s => rw [hrel] at hsucc; exact absurd hsucc (by simp)
              | barrierSemaphore s st sg =>
                rw [hrel] at hsucc
                exact absurd hsucc (by simp)
              | transfer s st sg o =>
                rw [hrel] at hsucc
                exact absurd hsucc (by simp)
              | none =>
                rw [hrel] at hsucc
                dsimp only at hsucc
                have hc' : c' = { c with links := (setl (setl c.links i
                    { li with acquire := (LinkSync.transfer acq ((0, fromL), li.state)
                      (PipelineStage.BOTTOM_OF_PIPE, li.stages) li.queue) }) k
                    { lk1 with release := (LinkSync.transfer rel (lk1.state, (0, toL))
                      (lk1.stages, PipelineStage.TOP_OF_PIPE) lk1.queue) }) } :=
                  (Option.some.inj hsucc).symm
                subst hc'
                have hklt : k < (setl c.links i
                    { li with acquire := (LinkSync.transfer acq ((0, fromL), li.state)
                      (PipelineStage.BOTTOM_OF_PIPE, li.stages) li.queue) }).length :=
                  getl_isSome_lt (by simp [hgk1])
                have hklt0 : k < c.links.length := by
                  rw [length_setl] at hklt
                  exact hklt
                constructor
                · refine ⟨i, li, rfl, hgi, hacq, ?_⟩
                  by_cases hki : k = i
                  · subst hki
                    have hlk1 : lk1 = { li with
                        acquire := LinkSync.transfer acq ((0, fromL), li.state)
                          (PipelineStage.BOTTOM_OF_PIPE, li.stages) li.queue } :=
                      Option.some.inj ((getl_setl_self hilt _).symm.trans hgk1).symm
                    refine ⟨k, li, rfl, hgi, ?_, ?_, rfl, rfl, ?_, ?_, ?_⟩
                    · show li.release = LinkSync.none
                      rw [hlk1] at hrel
                      exact hrel
                    · rw [length_setl, length_setl]
                    · intro j hji _
                      rw [getl_setl_ne hji, getl_setl_ne hji]
                    · refine ⟨_, getl_setl_self (by rw [length_setl]; exact hilt) _, ?_⟩
                      rw [hlk1]
                    · refine ⟨_, getl_setl_self (by rw [length_setl]; exact hilt) _, ?_⟩
                      rw [hlk1]
                  · have hgk : getl c.links k = some lk1 := by
                      rw [← hgk1, getl_setl_ne hki]
                    refine ⟨k, lk1, rfl, hgk, hrel, ?_, rfl, rfl, ?_, ?_, ?_⟩
                    · rw [length_setl, length_setl]
                    · intro j hji hjk
                      rw [getl_setl_ne hjk, getl_setl_ne hji]
                    · refine ⟨{ li with
                        acquire := (LinkSync.transfer acq ((0, fromL), li.state)
                          (PipelineStage.BOTTOM_OF_PIPE, li.stages) li.queue) }, ?_, rfl⟩
                      rw [getl_setl_ne (fun hh => hki hh.symm)]
                      exact getl_setl_self hilt _
                    · exact ⟨_, getl_setl_self hklt _, rfl⟩
                · intro acq2 f2 rel2 t2
                  unfold ImageChain.with_presentable_sync
                  have hshape2 : ∀ j, (getl (setl (setl c.links i
                      { li with acquire := (LinkSync.transfer acq ((0, fromL), li.state)
                        (PipelineStage.BOTTOM_OF_PIPE, li.stages) li.queue) }) k
                      { lk1 with release := (LinkSync.transfer rel (lk1.state, (0, toL))
                        (lk1.stages, PipelineStage.TOP_OF_PIPE) lk1.queue) }) j).isSome
                      = (getl c.links j).isSome := by
                    intro j
                    rw [isSome_getl_setl (by simp [hgk1]) _ j, hshape1 j]
                  have hfi2 : first_index (setl (setl c.links i
                      { li with acquire := (LinkSync.transfer acq ((0, fromL), li.state)
                        (PipelineStage.BOTTOM_OF_PIPE, li.stages) li.queue) }) k
                      { lk1 with release := (LinkSync.transfer rel (lk1.state, (0, toL))
                        (lk1.stages, PipelineStage.TOP_OF_PIPE) lk1.queue) })
                      = some i := by
                    rw [first_index_shape (by rw [length_setl, length_setl]) hshape2, hfi]
                  rw [hfi2]
                  dsimp only
                  by_cases hki : k = i
                  · subst hki
                    have hlk1 : lk1 = { li with
                        acquire := (LinkSync.transfer acq ((0, fromL), li.state)
                          (PipelineStage.BOTTOM_OF_PIPE, li.stages) li.queue) } :=
                      (Option.some.inj ((getl_setl_self hilt _).symm.trans hgk1)).symm
                    rw [getl_setl_self hklt _, hlk1]
                  · rw [getl_setl_ne (fun hh => hki hh.symm),
                      getl_setl_self hilt _]
  · intro i li hfi hgi hacq
    unfold ImageChain.with_presentable_sync
    rw [hfi]
    dsimp only
    rw [hgi]
    dsimp only
    cases hac : li.acquire with
    | none => exact absurd hac hacq
    | barrier st sg => rfl
    | semaphore s => rfl
    | barrierSemaphore s st sg => rfl
    | transfer s st sg o => rfl
  · intro k lk hfine hfiall hla hgk hrel
    unfold ImageChain.with_presentable_sync
    cases hfi : first_index c.links with
    | none => exact absurd hfi hfine
    | some i =>
      dsimp only
      cases hgi : getl c.links i with
      | none => rfl
      | some li =>
        dsimp only
        rw [hfiall i li hfi hgi]
        dsimp only
        have hilt : i < c.links.length := getl_isSome_lt (by simp [hgi])
        have hshape1 : ∀ j, (getl (setl c.links i
            { li with acquire := (LinkSync.transfer acq ((0, fromL), li.state)
              (PipelineStage.BOTTOM_OF_PIPE, li.stages) li.queue) }) j).isSome
            = (getl c.links j).isSome :=
          isSome_getl_setl (by simp [hgi]) _
        rw [last_index_shape (length_setl ..) hshape1, hla]
        dsimp only
        by_cases hki : k = i
        · subst hki
          rw [getl_setl_self hilt _]
          dsimp only
          have hlk : lk = li := Option.some.inj (hgi.symm.trans hgk).symm
          cases hlr : li.release with
          | none =>
            exfalso
            apply hrel
            rw [hlk, hlr]
          | barrier st sg => rfl
          | semaphore s => rfl
          | barrierSemaphore s st sg => rfl
          | transfer s st sg o => rfl
        · rw [getl_setl_ne hki, hgk]
          dsimp only
          cases hlr : lk.release with
          | none => exact absurd hlr hrel
          | barrier st sg => rfl
          | semaphore s => rfl
          | barrierSemaphore s st sg => rfl
          | transfer s st sg o => rfl

/-- The presentable patch of `imageChainWR` (both boundaries still
unsynchronized). -/
def imageChainWRPatched : ImageChain Nat Nat :=
  (imageChainWR.with_presentable_sync 100 ImageLayout.General 200
    ImageLayout.Present).getD imageChainWR

/-- Witness for C8: the first application to the clean two-link chain
succeeds, and the second application to its result fails. -/
theorem with_presentable_sync_once_witness :
    imageChainWRPatched.with_presentable_sync 101 ImageLayout.General 201
      ImageLayout.Present = Option.none :=
  ((with_presentable_sync_once imageChainWR 100 ImageLayout.General 200
      ImageLayout.Present).1 imageChainWRPatched (by decide)).2
    101 ImageLayout.General 201 ImageLayout.Present




/-- A pass reading a buffer in a shader on `queueA`. -/
def readBufferPass : PassLinks BufferState Nat where
  queue := queueA
  links := [{ id := 0, stages := 4, state := BufferAccess.SHADER_READ, usage := 1 }]

/-- A pass writing a buffer in a shader on `queueA` (even ring positions of
the alternating witness). -/
def writeBufferPass : PassLinks BufferState Nat where
  queue := queueA
  links := [{ id := 0, stages := 1, state := BufferAccess.SHADER_WRITE, usage := 1 }]

/-- The alternating ring's read pass at odd positions (stage mask `2 ^ 1`). -/
def readBufferPassOdd : PassLinks BufferState Nat where
  queue := queueA
  links := [{ id := 0, stages := 2, state := BufferAccess.SHADER_READ, usage := 2 }]

/-- The same shader write declared on `queueB` (family 0). -/
def writeBufferPassB : PassLinks BufferState Nat where
  queue := queueB
  links := [{ id := 0, stages := 1, state := BufferAccess.SHADER_WRITE, usage := 1 }]

/-- The same shader write declared on `queueC` (family 1). -/
def writeBufferPassC : PassLinks BufferState Nat where
  queue := queueC
  links := [{ id := 0, stages := 1, state := BufferAccess.SHADER_WRITE, usage := 1 }]

/-- Witness for C1 on the concrete two-pass all-read buffer ring. -/
theorem build_all_read_same_queue_merges_no_sync_witness :
    ∃ ch : Chain BufferState Nat Unit Nat Nat,
      Chain.build bufferStateOps (fun a b => a ||| b) 0 0 ()
        [readBufferPass, readBufferPass] (fun k => (k, k)) = some ch ∧
      ch.links.length = 2 := by
  obtain ⟨ch, hch, hlen, _⟩ := build_all_read_same_queue_merges_no_sync
    bufferStateOps (fun a b => a ||| b) 0 0 ()
    [readBufferPass, readBufferPass] (fun k => (k, k)) queueA
    BufferAccess.SHADER_READ
    (by decide)
    (by
      intro p hp
      have hpr : p = readBufferPass := by
        rcases List.mem_cons.mp hp with h | h
        · exact h
        · simpa using h
      subst hpr
      exact ⟨_, rfl, rfl⟩)
    (by decide)
    (by simp)
  exact ⟨ch, hch, hlen⟩

/-- Witness for C2 on the concrete write-read buffer ring of length two. -/
theorem build_alternating_write_read_barrier_only_witness :
    ∃ ch : Chain BufferState Nat Unit Nat Nat,
      Chain.build bufferStateOps (fun a b => a ||| b) 0 0 ()
        [writeBufferPass, readBufferPassOdd] (fun k => (k, k)) = some ch ∧
      ch.links.length = 2 := by
  obtain ⟨ch, hch, hlen, _⟩ := build_alternating_write_read_barrier_only
    bufferStateOps (fun a b => a ||| b) 0 0 ()
    [writeBufferPass, readBufferPassOdd] (fun k => (k, k)) queueA
    BufferAccess.SHADER_WRITE BufferAccess.SHADER_READ (fun i => 2 ^ i) 1
    (by omega) (by decide)
    (by
      intro i hi
      match i, hi with
      | 0, _ => exact ⟨rfl, _, rfl, by decide, by decide⟩
      | 1, _ => exact ⟨rfl, _, rfl, by decide, by decide⟩)
    (by decide) (by decide) (by decide) (by decide)
  exact ⟨ch, hch, by rw [hlen]⟩

/-- Witness for C3 on the concrete cross-queue same-family buffer ring. -/
theorem build_two_queues_same_family_semaphore_witness :
    ∃ ch : Chain BufferState Nat Unit Nat Nat,
      Chain.build bufferStateOps (fun a b => a ||| b) 0 0 ()
        [writeBufferPass, { queue := queueB, links := readBufferPass.links }]
        (fun k => (k, k)) = some ch ∧
      ch.links.length = 2 := by
  obtain ⟨ch, hch, hlen, _⟩ := build_two_queues_same_family_semaphore
    bufferStateOps (fun a b => a ||| b) 0 0 () (fun k => (k, k))
    writeBufferPass { queue := queueB, links := readBufferPass.links }
    { id := 0, stages := 1, state := BufferAccess.SHADER_WRITE, usage := 1 }
    { id := 0, stages := 4, state := BufferAccess.SHADER_READ, usage := 1 }
    rfl rfl (by decide) rfl (by decide) (by decide)
  exact ⟨ch, hch, hlen⟩

/-- Witness for C4 on the concrete cross-family buffer ring. -/
theorem build_two_queues_cross_family_transfer_pairs_witness :
    ∃ ch : Chain BufferState Nat Unit Nat Nat,
      Chain.build bufferStateOps (fun a b => a ||| b) 0 0 ()
        [writeBufferPass, { queue := queueC, links := readBufferPass.links }]
        (fun k => (k, k)) = some ch ∧
      ch.links.length = 2 := by
  obtain ⟨ch, hch, hlen, _⟩ := build_two_queues_cross_family_transfer_pairs
    bufferStateOps (fun a b => a ||| b) 0 0 () (fun k => (k, k))
    writeBufferPass { queue := queueC, links := readBufferPass.links }
    { id := 0, stages := 1, state := BufferAccess.SHADER_WRITE, usage := 1 }
    { id := 0, stages := 4, state := BufferAccess.SHADER_READ, usage := 1 }
    rfl rfl (by decide)
  exact ⟨ch, hch, hlen⟩


end Chains
